import Mathlib

/-!
The package `inputconsole` (inputconsole-go): a verification development.

A shallow embedding of `inputconsole.go` (package `inputconsole`).

* Go strings are byte sequences: `GoString` is a list of byte values.  All
  slicing in the source (`s[:n]`, `strings.Split`, `strings.TrimRight`) is
  byte-wise, and so is the embedding.
* The parts of the Go standard library the file calls (`strings.Split`,
  `strings.Join`, `strings.TrimRight`, `strings.HasSuffix`, UTF-8 encoding of a
  rune, and `fmt.Sprintf`/`fmt.Printf` called with a format and no operands)
  are embedded from the library sources.
* Command handlers are closures of the caller.  They are embedded as state
  transformers over an arbitrary caller-owned world `W` that either return or
  panic; every invocation is also recorded in a call log.
* The terminal is the list of strings written to standard output, one entry
  per `fmt.Printf` call of the console.
-/

namespace InputConsole

/-! ## Go strings -/

/-- A Go string: a sequence of bytes (each value below 256). -/
abbrev GoString := List Nat

/-- Bytes of a literal made of ASCII characters only. -/
def ascii (s : String) : GoString := s.toList.map Char.toNat

/-- The function `strings.Split(s, " ")`: cut at every space byte, keeping empty pieces;
the result always has at least one piece. -/
def Split : GoString → List GoString
  | [] => [[]]
  | c :: cs =>
    if c = 32 then [] :: Split cs
    else
      match Split cs with
      | [] => [[c]]
      | p :: ps => (c :: p) :: ps

/-- The function `strings.Join(elems, " ")`. -/
def Join : List GoString → GoString
  | [] => []
  | [a] => a
  | a :: b :: rest => a ++ 32 :: Join (b :: rest)

/-- The function `strings.TrimRight(s, cutset)` for an ASCII cutset: drop every trailing
byte that occurs in the cutset. -/
def TrimRight (s : GoString) (cutset : List Nat) : GoString :=
  (s.reverse.dropWhile (fun c => decide (c ∈ cutset))).reverse

/-- The function `strings.HasSuffix(s, " ")`. -/
def HasSuffixSpace (s : GoString) : Bool :=
  match s.getLast? with
  | some c => decide (c = 32)
  | none => false

/-! ## UTF-8 (package `unicode/utf8`) -/

/-- The bytes of `utf8.RuneError` (U+FFFD). -/
def runeErrorBytes : GoString := [239, 191, 189]

/-- The function `utf8.AppendRune` on an empty buffer, for a rune given as an `int32` value;
negative values, surrogates and values above `MaxRune` encode as `RuneError`. -/
def encodeRune (r : Int) : GoString :=
  let n := r.toNat
  if r < 0 then runeErrorBytes
  else if n ≤ 0x7F then [n]
  else if n ≤ 0x7FF then [192 + n / 64, 128 + n % 64]
  else if n > 0x10FFFF ∨ (0xD800 ≤ n ∧ n ≤ 0xDFFF) then runeErrorBytes
  else if n ≤ 0xFFFF then [224 + n / 4096, 128 + (n / 64) % 64, 128 + n % 64]
  else [240 + n / 262144, 128 + (n / 4096) % 64, 128 + (n / 64) % 64, 128 + n % 64]

/-- Continuation byte test (`locb ≤ b ≤ hicb`). -/
def isCont (b : Nat) : Bool := decide (0x80 ≤ b ∧ b ≤ 0xBF)

/-- The function `utf8.DecodeRuneInString` on a non-empty string whose first byte is at
least `RuneSelf`: the rune and the number of bytes it occupies; an invalid or short
encoding gives `(RuneError, 1)`. -/
def decodeRune (s : GoString) : Int × Nat :=
  match s with
  | [] => (0xFFFD, 0)
  | s0 :: t =>
    if s0 < 0x80 then (s0, 1)
    else if s0 < 0xC2 ∨ 0xF4 < s0 then (0xFFFD, 1)
    else if s0 ≤ 0xDF then
      match t with
      | s1 :: _ => if isCont s1 then (((s0 % 32) * 64 + s1 % 64 : Nat), 2) else (0xFFFD, 1)
      | _ => (0xFFFD, 1)
    else if s0 ≤ 0xEF then
      let lo := if s0 = 0xE0 then 0xA0 else 0x80
      let hi := if s0 = 0xED then 0x9F else 0xBF
      match t with
      | s1 :: s2 :: _ =>
        if s1 < lo ∨ hi < s1 then (0xFFFD, 1)
        else if !isCont s2 then (0xFFFD, 1)
        else (((s0 % 16) * 4096 + (s1 % 64) * 64 + s2 % 64 : Nat), 3)
      | _ => (0xFFFD, 1)
    else
      let lo := if s0 = 0xF0 then 0x90 else 0x80
      let hi := if s0 = 0xF4 then 0x8F else 0xBF
      match t with
      | s1 :: s2 :: s3 :: _ =>
        if s1 < lo ∨ hi < s1 then (0xFFFD, 1)
        else if !isCont s2 then (0xFFFD, 1)
        else if !isCont s3 then (0xFFFD, 1)
        else (((s0 % 8) * 262144 + (s1 % 64) * 4096 + (s2 % 64) * 64 + s3 % 64 : Nat), 4)
      | _ => (0xFFFD, 1)

/-! ## `fmt.Sprintf(format)` with no operands (package `fmt`, `doPrintf`) -/

/-- The loop of `parsenum`: the number read so far, whether a digit was seen, and the
rest of the input.  A number above one million stops the scan at the end of the range. -/
def parsenum : GoString → Nat → Bool → Nat × Bool × GoString
  | [], num, isnum => (num, isnum, [])
  | c :: cs, num, isnum =>
    if 48 ≤ c ∧ c ≤ 57 then
      if num > 1000000 then (0, false, [])
      else parsenum cs (num * 10 + (c - 48)) true
    else (num, isnum, c :: cs)

/-- The function `parseArgNumber` on a string that starts with `[`: the number of bytes
to skip and whether the bracket holds a well-formed number. -/
def parseArgNumber (s : GoString) : Nat × Bool :=
  if s.length < 3 then (1, false)
  else
    let body := s.tail
    let j := body.indexOf 93
    if j < body.length then
      match parsenum (body.take j) 0 false with
      | (_, isnum, rest) => (j + 2, isnum && rest.isEmpty)
    else (1, false)

/-- The method `argNumber` when there are no operands: any `[n]` index is out of range,
so it clears `goodArgNum`.  Returns the rest of the format, `found`, and `goodArgNum`. -/
def argNumber (s : GoString) (good : Bool) : GoString × Bool × Bool :=
  match s with
  | 91 :: _ =>
    match parseArgNumber s with
    | (wid, ok) => (s.drop wid, ok, false)
  | _ => (s, false, good)

/-- Skip the flag bytes `#`, `0`, `+`, `-` and space that follow a percent sign. -/
def skipFlags : GoString → GoString
  | [] => []
  | c :: cs =>
    if c = 35 ∨ c = 48 ∨ c = 43 ∨ c = 45 ∨ c = 32 then skipFlags cs else c :: cs

/-- Width part of a verb: `*` has no operand to read and writes `%!(BADWIDTH)`. -/
def parseWidth (s : GoString) (afterIndex good : Bool) : GoString × GoString × Bool × Bool :=
  match s with
  | 42 :: t => (ascii "%!(BADWIDTH)", t, false, good)
  | _ =>
    match parsenum s 0 false with
    | (_, present, t) => ([], t, afterIndex, if afterIndex && present then false else good)

/-- Precision part of a verb: `.` followed by an optional index and `*` or digits. -/
def parsePrec (s : GoString) (afterIndex good : Bool) : GoString × GoString × Bool × Bool :=
  match s with
  | 46 :: t =>
    match argNumber t (if afterIndex then false else good) with
    | (t1, afterIndex1, good1) =>
      match t1 with
      | 42 :: t2 => (ascii "%!(BADPREC)", t2, false, good1)
      | _ =>
        match parsenum t1 0 false with
        | (_, _, t2) => ([], t2, afterIndex1, good1)
  | _ => ([], s, afterIndex, good)

/-- One verb of `doPrintf` with no operands; the input is the format after the percent
sign, the result is the text written and the rest of the format. -/
def doVerb (s : GoString) : GoString × GoString :=
  match argNumber (skipFlags s) true with
  | (s2, afterIndex2, good2) =>
    match parseWidth s2 afterIndex2 good2 with
    | (out1, s3, afterIndex3, good3) =>
      match parsePrec s3 afterIndex3 good3 with
      | (out2, s4, afterIndex4, good4) =>
        match (if afterIndex4 then (s4, afterIndex4, good4) else argNumber s4 good4) with
        | (s5, _, good5) =>
          match s5 with
          | [] => (out1 ++ out2 ++ ascii "%!(NOVERB)", [])
          | c :: _ =>
            match (if c ≥ 128 then decodeRune s5 else ((c : Int), 1)) with
            | (verb, size) =>
              if verb = 37 then (out1 ++ out2 ++ [37], s5.drop size)
              else if good5 then
                (out1 ++ out2 ++ ascii "%!" ++ encodeRune verb ++ ascii "(MISSING)", s5.drop size)
              else
                (out1 ++ out2 ++ ascii "%!" ++ encodeRune verb ++ ascii "(BADINDEX)", s5.drop size)

/-- The format loop of `doPrintf` with no operands: copy the text up to the next percent
sign, then process one verb.  Each round consumes at least the percent sign, so
`length + 1` rounds always suffice. -/
def doPrintf : Nat → GoString → GoString
  | 0, _ => []
  | n + 1, s =>
    match s.span (fun c => decide (c ≠ 37)) with
    | (lit, []) => lit
    | (lit, _ :: t) =>
      match doVerb t with
      | (o, rest) => lit ++ o ++ doPrintf n rest

/-- The call `fmt.Sprintf(format)` with no operands. -/
def Sprintf0 (format : GoString) : GoString := doPrintf (format.length + 1) format

/-! ## The console -/

/-- How a call into caller code ends: it returns a value, or it panics; `d` is the
rendering under the verb `%v` of the value `recover()` then returns, which is not nil. -/
inductive Outcome (α : Type) where
  | ret (a : α)
  | panic (d : GoString)

/-- A command action `func([]string)`, run in the caller's world. -/
abbrev Action (W : Type) := List GoString → W → W × Outcome Unit

/-- An unknown-command handler `func(string) bool`, run in the caller's world. -/
abbrev UnknownHandler (W : Type) := GoString → W → W × Outcome Bool

/-- The struct `InputConsole`.  The map `commands` is the list of its entries in the
order a `range` loop visits them (a Go map has no two entries with the same key). -/
structure Console (W : Type) where
  inputString : GoString
  prompt : GoString
  unknownCommandHandler : Option (UnknownHandler W)
  commands : List (GoString × Action W)

/-- The constructor `NewInputConsole`. -/
def NewInputConsole (W : Type) : Console W :=
  { inputString := [], prompt := ascii "> ", unknownCommandHandler := none, commands := [] }

/-- Map assignment `m[k] = v`: overwrite the entry with key `k`, or add one. -/
def mapSet {V : Type} (m : List (GoString × V)) (k : GoString) (v : V) : List (GoString × V) :=
  match m with
  | [] => [(k, v)]
  | (k0, v0) :: rest => if k0 = k then (k, v) :: rest else (k0, v0) :: mapSet rest k v

/-- Map read `m[k]` (with the comma-ok result as an option). -/
def mapGet {V : Type} (m : List (GoString × V)) (k : GoString) : Option V :=
  match m with
  | [] => none
  | (k0, v0) :: rest => if k0 = k then some v0 else mapGet rest k

/-- The method `RegisterCommand`. -/
def RegisterCommand {W : Type} (ic : Console W) (name : GoString) (action : Action W) :
    Console W :=
  { ic with commands := mapSet ic.commands name action }

/-- The method `SetUnknownCommandHandler`. -/
def SetUnknownCommandHandler {W : Type} (ic : Console W) (handler : Option (UnknownHandler W)) :
    Console W :=
  { ic with unknownCommandHandler := handler }

/-- The green, red and reset escape codes. -/
def green : GoString := [27] ++ ascii "[92m"
def red : GoString := [27] ++ ascii "[91m"
def reset : GoString := [27] ++ ascii "[0m"

/-- The loop `for name,_ := range ic.commands` of `parseInputString`: `hasCommand`
becomes true when some key equals the first component. -/
def hasCommandRange {V : Type} (first : GoString) : List (GoString × V) → Bool → Bool
  | [], hasCommand => hasCommand
  | (name, _) :: rest, hasCommand =>
    hasCommandRange first rest (if name = first then true else hasCommand)

/-- The filter loop of `parseInputString`: keep the components that are not empty. -/
def nonEmptyComponents : List GoString → List GoString
  | [] => []
  | str :: rest => if str ≠ [] then str :: nonEmptyComponents rest else nonEmptyComponents rest

/-- The method `parseInputString`. -/
def parseInputString {W : Type} (ic : Console W) (pfx : GoString) : GoString :=
  let inputStringComponents := nonEmptyComponents (Split ic.inputString)
  let printableInputString :=
    match inputStringComponents with
    | [] => ic.inputString
    | first :: others =>
      let spaceChar : GoString := if (first :: others).length > 1 then [32] else []
      let hasCommand := hasCommandRange first ic.commands false
      let painted :=
        if hasCommand then green ++ first ++ reset ++ spaceChar ++ Join others
        else red ++ first ++ reset ++ spaceChar ++ Join others
      if HasSuffixSpace ic.inputString then painted ++ [32] else painted
  pfx ++ printableInputString

/-- The string that `Writef` hands to `fmt.Printf`, for the formatted message `text`
(the result of `fmt.Sprintf(format, vargs...)`). -/
def writefLine {W : Type} (ic : Console W) (text : GoString) : GoString :=
  let output := [13, 27] ++ ascii "[K" ++ TrimRight text [10] ++ [10]
  let output := output ++ [13] ++ ic.prompt
  parseInputString ic output

/-- One invocation of caller code, as recorded in the call log. -/
inductive Call where
  | command (name : GoString) (args : List GoString)
  | unknown (line : GoString)
  deriving DecidableEq

/-- What the console and its callers share: the console itself, the strings written
to standard output (one per `fmt.Printf` call), the caller's world and the call log. -/
structure Env (W : Type) where
  ic : Console W
  stdout : List GoString
  world : W
  calls : List Call

/-- The method `Writef`, from the formatted message on: `fmt.Printf(output)` uses the
assembled line as a format string with no operands. -/
def Writef {W : Type} (e : Env W) (text : GoString) : Env W :=
  { e with stdout := e.stdout ++ [Sprintf0 (writefLine e.ic text)] }

/-- The text `fmt.Sprintf("Failed to run command '%s': %v", commandName, r)`. -/
def failedText (commandName d : GoString) : GoString :=
  ascii "Failed to run command " ++ [39] ++ commandName ++ [39] ++ ascii ": " ++ d

/-- The text `fmt.Sprintf("Unknown command: %s\n", command)`. -/
def unknownFormat (command : GoString) : GoString :=
  ascii "Unknown command: " ++ command ++ [10]

/-- The body of the loop of `handleCommand` once a key matches: the action runs on the
arguments; when it panics the deferred function recovers and reports through `Writef`. -/
def runAction {W : Type} (e : Env W) (commandName : GoString) (args : List GoString)
    (action : Action W) : Env W :=
  match action args e.world with
  | (w, Outcome.ret _) =>
    { e with world := w, calls := e.calls ++ [Call.command commandName args] }
  | (w, Outcome.panic d) =>
    Writef { e with world := w, calls := e.calls ++ [Call.command commandName args] }
      (failedText commandName d)

/-- The loop `for name,action := range ic.commands` of `handleCommand`: on the first
key equal to the command name the action runs and `handleCommand` returns.  `none`
means no key matched. -/
def handleCommandRange {W : Type} (e : Env W) (commandName : GoString) (args : List GoString) :
    List (GoString × Action W) → Option (Env W)
  | [] => none
  | (name, action) :: rest =>
    if name = commandName then some (runAction e commandName args action)
    else handleCommandRange e commandName args rest

/-- The method `handleCommand`.  The outcome is `panic` when a panic of the
unknown-command handler leaves the method. -/
def handleCommand {W : Type} (e : Env W) (command : GoString) : Env W × Outcome Unit :=
  let commandComponents := Split command
  let commandName := commandComponents.headD []
  match handleCommandRange e commandName commandComponents.tail e.ic.commands with
  | some e1 => (e1, Outcome.ret ())
  | none =>
    match e.ic.unknownCommandHandler with
    | some handler =>
      match handler command e.world with
      | (w, Outcome.ret true) =>
        ({ e with world := w, calls := e.calls ++ [Call.unknown command] }, Outcome.ret ())
      | (w, Outcome.ret false) =>
        (Writef { e with world := w, calls := e.calls ++ [Call.unknown command] }
          (Sprintf0 (unknownFormat command)), Outcome.ret ())
      | (w, Outcome.panic d) =>
        ({ e with world := w, calls := e.calls ++ [Call.unknown command] }, Outcome.panic d)
    | none => (Writef e (Sprintf0 (unknownFormat command)), Outcome.ret ())

/-! ## The read loop -/

/-- Key codes of `github.com/eiannone/keyboard` used by the loop. -/
def KeyCtrlC : Nat := 0x03
def KeyBackspace : Nat := 0x08
def KeyEnter : Nat := 0x0D
def KeySpace : Nat := 0x20
def KeyBackspace2 : Nat := 0x7F
def KeyArrowUp : Nat := 0xFFFF - 18
def KeyArrowDown : Nat := 0xFFFF - 19
def KeyArrowLeft : Nat := 0xFFFF - 20
def KeyArrowRight : Nat := 0xFFFF - 21

/-- A key event returned by `keyboard.GetKey`: a rune and a key code. -/
structure KeyEvent where
  r : Int
  key : Nat
  deriving DecidableEq

/-- The result of one `keyboard.GetKey` call. -/
inductive KeyResult where
  | ok (ev : KeyEvent)
  | err (e : GoString)
  deriving DecidableEq

/-- Calls made to the keyboard driver. -/
inductive DriverCall where
  | open
  | getKey
  | close
  deriving DecidableEq

/-- Where the read loop stands: blocked in or about to call `GetKey`, returned after
`Ctrl-C`, or unwound by a panic. -/
inductive Status where
  | listening
  | terminated
  | panicked (d : GoString)
  deriving DecidableEq

/-- The state of the goroutine running `inputThread`. -/
structure Loop (W : Type) where
  env : Env W
  driver : List DriverCall
  status : Status

/-- The editing branches of the inner loop: the new console and what they print. -/
def editKey {W : Type} (ic : Console W) (ev : KeyEvent) : Console W × List GoString :=
  if ev.key = KeyBackspace ∨ ev.key = KeyBackspace2 then
    if ic.inputString ≠ [] then
      ({ ic with inputString := ic.inputString.take (ic.inputString.length - 1) },
        [[8, 27] ++ ascii "[K"])
    else (ic, [])
  else if ev.key = KeyArrowUp ∨ ev.key = KeyArrowDown ∨ ev.key = KeyArrowLeft ∨
      ev.key = KeyArrowRight then
    (ic, [[27] ++ ascii "[C"])
  else if ev.key = KeySpace then
    ({ ic with inputString := ic.inputString ++ [32] }, [])
  else if ev.r ≠ 0 then
    ({ ic with inputString := ic.inputString ++ encodeRune ev.r }, [])
  else (ic, [])

/-- The redraw `fmt.Printf(ic.parseInputString(fmt.Sprintf("\r%s", ic.prompt)))`. -/
def redraw {W : Type} (ic : Console W) : GoString :=
  Sprintf0 (parseInputString ic ([13] ++ ic.prompt))

/-- One key event: edit, redraw, then leave on `Ctrl-C` or commit the line on `Enter`. -/
def stepKey {W : Type} (s : Loop W) (ev : KeyEvent) : Loop W :=
  match editKey s.env.ic ev with
  | (ic1, printed) =>
    let env1 : Env W := { s.env with ic := ic1, stdout := s.env.stdout ++ printed ++ [redraw ic1] }
    if ev.key = KeyCtrlC then
      { env := env1, driver := s.driver ++ [DriverCall.close], status := Status.terminated }
    else if ev.key = KeyEnter then
      let ret := ic1.inputString
      let env2 : Env W := { env1 with ic := { ic1 with inputString := [] } }
      match handleCommand env2 (TrimRight ret [13, 10]) with
      | (env3, Outcome.ret _) => { env := env3, driver := s.driver, status := Status.listening }
      | (env3, Outcome.panic d) =>
        { env := env3, driver := s.driver ++ [DriverCall.close], status := Status.panicked d }
    else { env := env1, driver := s.driver, status := Status.listening }

/-- The loops of `inputThread` over the results the driver delivers; when they run out
the goroutine is blocked in `GetKey`. -/
def inputLoop {W : Type} : List KeyResult → Loop W → Loop W
  | [], s => s
  | k :: ks, s =>
    match s.status with
    | Status.listening =>
      match k with
      | KeyResult.err e =>
        { s with driver := s.driver ++ [DriverCall.getKey, DriverCall.close],
                 status := Status.panicked e }
      | KeyResult.ok ev =>
        inputLoop ks (stepKey { s with driver := s.driver ++ [DriverCall.getKey] } ev)
    | _ => s

/-- The method `inputThread`: print the prompt, open the keyboard (closing it on every
way out), and run the loops. -/
def inputThread {W : Type} (openErr : Option GoString) (keys : List KeyResult) (e : Env W) :
    Loop W :=
  let e0 : Env W := { e with stdout := e.stdout ++ [e.ic.prompt] }
  match openErr with
  | some err =>
    { env := e0, driver := [DriverCall.open, DriverCall.close], status := Status.panicked err }
  | none => inputLoop keys { env := e0, driver := [DriverCall.open], status := Status.listening }

/-- The method `ListenForInput`, followed by the run of the goroutine it starts. -/
def ListenForInput {W : Type} (e : Env W) (prompt : GoString) (openErr : Option GoString)
    (keys : List KeyResult) : Loop W :=
  inputThread openErr keys { e with ic := { e.ic with prompt := prompt } }

/-! ## Sample values -/

/-- A console with the command `add` registered and the buffer `add 1  2 ` (two spaces
before the last argument, one after it). -/
def sampleConsole : Console Unit :=
  { inputString := ascii "add 1  2 ", prompt := ascii "> ", unknownCommandHandler := none,
    commands := [(ascii "add", fun _ w => (w, Outcome.ret ()))] }

/-- An action that appends `tag` followed by its arguments to a log and returns. -/
def logAction (tag : GoString) : Action (List (List GoString)) :=
  fun args w => (w ++ [tag :: args], Outcome.ret ())

/-- An action that panics with the detail `boom`. -/
def boomAction : Action (List (List GoString)) :=
  fun _ w => (w, Outcome.panic (ascii "boom"))

/-- An environment whose console has the commands `add` and `fail`, the default prompt
and an empty buffer; the world is a log of the calls the actions saw. -/
def sampleEnv : Env (List (List GoString)) :=
  { ic := { inputString := [], prompt := ascii "> ", unknownCommandHandler := none,
            commands := [(ascii "add", logAction (ascii "add")), (ascii "fail", boomAction)] },
    stdout := [], world := [], calls := [] }

/-- A fresh environment: the console of `NewInputConsole`, nothing written, no calls. -/
def newEnv {W : Type} (w : W) : Env W :=
  { ic := NewInputConsole W, stdout := [], world := w, calls := [] }

/-! ## The buffer as the spec describes it -/

/-- An edit of the buffer: a character event or a Backspace event. -/
inductive Edit where
  | char (r : Int)
  | backspace
  deriving DecidableEq

/-- The key event the driver delivers for an edit. -/
def Edit.toKey : Edit → KeyEvent
  | Edit.char r => { r := r, key := 0 }
  | Edit.backspace => { r := 0, key := KeyBackspace }

/-- One edit on a sequence of characters, in the spec's words: a character event
appends that one character, a Backspace removes the last character if there is one. -/
def applyEdit (buf : List Int) : Edit → List Int
  | Edit.char r => buf ++ [r]
  | Edit.backspace => buf.dropLast

/-- The spec's buffer: the left fold of the edits, starting from the empty buffer. -/
def specFold (edits : List Edit) : List Int := edits.foldl applyEdit []

/-- The Go string that holds a sequence of characters. -/
def encodeRunes : List Int → GoString
  | [] => []
  | r :: rs => encodeRune r ++ encodeRunes rs

/-! ## Terminal output as a frame -/

/-- The environment with `x` written to the terminal before everything else. -/
def Env.prependOut {W : Type} (x : List GoString) (e : Env W) : Env W :=
  { e with stdout := x ++ e.stdout }

/-- The loop state with `x` written to the terminal before everything else. -/
def Loop.prependOut {W : Type} (x : List GoString) (s : Loop W) : Loop W :=
  { s with env := s.env.prependOut x }

/-- The Enter event of the driver: key `KeyEnter`, no rune. -/
def enterEvent : KeyEvent := { r := 0, key := KeyEnter }

/-- A Ctrl-C event of the driver. -/
def ctrlCEvent : KeyEvent := { r := 0, key := KeyCtrlC }

/-- The state in which the read loop waits for the next key after an Enter whose
action returned and left the world `w`: the buffer is cleared, the redraw is written,
the call is logged. -/
def afterEnter {W : Type} (s : Loop W) (w : W) : Loop W :=
  { env := { ic := { s.env.ic with inputString := [] },
             stdout := s.env.stdout ++ [redraw s.env.ic],
             world := w,
             calls := s.env.calls ++
               [Call.command ((Split (TrimRight s.env.ic.inputString [13, 10])).headD [])
                 (Split (TrimRight s.env.ic.inputString [13, 10])).tail] },
    driver := s.driver ++ [DriverCall.getKey],
    status := Status.listening }

/-- A listening loop over `sampleEnv` with the buffer `fail`. -/
def sampleLoop : Loop (List (List GoString)) :=
  { env := { sampleEnv with ic := { sampleEnv.ic with inputString := ascii "fail" } },
    driver := [DriverCall.open],
    status := Status.listening }

/-- The environment `sampleEnv` with the buffer `50%`. -/
def percentEnv : Env (List (List GoString)) :=
  { sampleEnv with ic := { sampleEnv.ic with inputString := ascii "50%" } }

/-- An unknown-command handler that logs the line and reports `handled`. -/
def logUnknown (handled : Bool) : UnknownHandler (List (List GoString)) :=
  fun line w => (w ++ [[ascii "unknown", line]], Outcome.ret handled)

/-- The environment `sampleEnv` with an unknown-command handler installed. -/
def unknownEnv (handled : Bool) : Env (List (List GoString)) :=
  { sampleEnv with ic := SetUnknownCommandHandler sampleEnv.ic (some (logUnknown handled)) }

/-- The environment `sampleEnv` after registering `add` twice more, with actions that
log `h1` and `h2`. -/
def twiceEnv : Env (List (List GoString)) :=
  { sampleEnv with
    ic := RegisterCommand (RegisterCommand sampleEnv.ic (ascii "add") (logAction (ascii "h1")))
      (ascii "add") (logAction (ascii "h2")) }

/-- The erase string `"\b\033[K"` of the Backspace branch. -/
def eraseString : GoString := [8, 27] ++ ascii "[K"

/-- The clear-to-end-of-line escape `"\033[K"`. -/
def clearEscape : GoString := [27] ++ ascii "[K"

/-- A character event for the letter `a`. -/
def keyA : KeyEvent := { r := 97, key := 0 }

/-- A Backspace event. -/
def keyBackspace : KeyEvent := { r := 0, key := KeyBackspace }

/-- A listening loop over `sampleEnv` (empty buffer, prompt `> `). -/
def emptyLoop : Loop (List (List GoString)) :=
  { env := sampleEnv, driver := [DriverCall.open], status := Status.listening }

/-- An unknown-command handler that panics with the detail `bad`. -/
def panicUnknown : UnknownHandler (List (List GoString)) :=
  fun _ w => (w, Outcome.panic (ascii "bad"))

/-- The environment `sampleEnv` with the panicking unknown-command handler installed. -/
def panicEnv : Env (List (List GoString)) :=
  { sampleEnv with ic := SetUnknownCommandHandler sampleEnv.ic (some panicUnknown) }

/-- The invariant of the driver calls: while the loop listens `Close` has not been
called, and once the run is finished `Close` is the last call and the only one. -/
def DriverOk {W : Type} (s : Loop W) : Prop :=
  (s.status = Status.listening → DriverCall.close ∉ s.driver) ∧
  (s.status ≠ Status.listening →
    ∃ d, s.driver = d ++ [DriverCall.close] ∧ DriverCall.close ∉ d)

/-- A listening loop over `sampleEnv` with the buffer ` add` (a leading space). -/
def spaceAddLoop : Loop (List (List GoString)) :=
  { env := { sampleEnv with ic := { sampleEnv.ic with inputString := ascii " add" } },
    driver := [DriverCall.open],
    status := Status.listening }

/-- A listening loop over `sampleEnv` with the buffer `add 1 2`. -/
def addLoop : Loop (List (List GoString)) :=
  { env := { sampleEnv with ic := { sampleEnv.ic with inputString := ascii "add 1 2" } },
    driver := [DriverCall.open],
    status := Status.listening }

/-- No two adjacent bytes of the string are both spaces. -/
def NoDoubleSpace (b : GoString) : Prop :=
  List.Chain' (fun x y => ¬ (x = 32 ∧ y = 32)) b

/-- A console with `add` registered and the buffer `add 1 2 ` (single spaces, one at
the end). -/
def regularConsole : Console Unit :=
  { sampleConsole with inputString := ascii "add 1 2 " }

/-! ## Lemmas on the library functions -/

theorem Split_ne_nil (s : GoString) : Split s ≠ [] := by
  cases s with
  | nil => simp [Split]
  | cons c cs =>
    simp only [Split]
    split
    · simp
    · split <;> simp

theorem Split_eq_splitOn (s : GoString) : Split s = s.splitOn 32 := by
  induction s with
  | nil => rfl
  | cons c cs ih =>
    have h := List.splitOnP_cons (fun x => x == 32) c cs
    simp only [List.splitOn, Split]
    rw [h, ← List.splitOn, ← ih]
    by_cases hc : c = 32
    · simp [hc]
    · simp only [hc, if_false, beq_iff_eq]
      cases hsp : Split cs with
      | nil => exact absurd hsp (Split_ne_nil cs)
      | cons p ps => simp [List.modifyHead]

theorem nonEmptyComponents_eq_filter (l : List GoString) :
    nonEmptyComponents l = l.filter (fun p => decide (p ≠ [])) := by
  induction l with
  | nil => rfl
  | cons a l ih =>
    by_cases h : a = [] <;> simp [nonEmptyComponents, List.filter_cons, h, ih]

theorem Join_eq_intercalate (l : List GoString) : Join l = List.intercalate [32] l := by
  induction l with
  | nil => rfl
  | cons a l ih =>
    cases l with
    | nil => simp [Join, List.intercalate]
    | cons b rest =>
      simp only [Join, ih]
      simp [List.intercalate, List.intersperse]

theorem hasCommandRange_eq {V : Type} (first : GoString) (m : List (GoString × V)) (b : Bool) :
    hasCommandRange first m b = (b || decide (first ∈ m.map Prod.fst)) := by
  induction m generalizing b with
  | nil => simp [hasCommandRange]
  | cons e m ih =>
    obtain ⟨name, v⟩ := e
    simp only [hasCommandRange, ih, List.map_cons, List.mem_cons]
    by_cases h : name = first
    · simp [h]
    · have h2 : ¬ first = name := fun x => h x.symm
      simp [h, h2]

theorem HasSuffixSpace_iff (s : GoString) : HasSuffixSpace s = true ↔ s.getLast? = some 32 := by
  unfold HasSuffixSpace
  cases s.getLast? with
  | none => simp
  | some c => simp

/-! ## `doPrintf` never runs out of rounds -/

theorem parsenum_length (s : GoString) (num : Nat) (isnum : Bool) :
    (parsenum s num isnum).2.2.length ≤ s.length := by
  induction s generalizing num isnum with
  | nil => simp [parsenum]
  | cons c cs ih =>
    simp only [parsenum]
    split
    · split
      · simp
      · exact Nat.le_succ_of_le (ih _ _)
    · simp

theorem skipFlags_length (s : GoString) : (skipFlags s).length ≤ s.length := by
  induction s with
  | nil => simp [skipFlags]
  | cons c cs ih =>
    simp only [skipFlags]
    split
    · exact Nat.le_succ_of_le ih
    · simp

theorem argNumber_length (s : GoString) (good : Bool) :
    (argNumber s good).1.length ≤ s.length := by
  unfold argNumber
  split
  · simp only [List.length_drop]
    exact Nat.sub_le _ _
  · exact Nat.le_refl _

theorem parseWidth_length (s : GoString) (a g : Bool) :
    (parseWidth s a g).2.1.length ≤ s.length := by
  unfold parseWidth
  split
  · simp
  · exact parsenum_length _ _ _

theorem parsePrec_length (s : GoString) (a g : Bool) :
    (parsePrec s a g).2.1.length ≤ s.length := by
  unfold parsePrec
  split
  · rename_i t
    have h1 := argNumber_length t (if a then false else g)
    generalize argNumber t (if a then false else g) = r at h1 ⊢
    obtain ⟨t1, a1, g1⟩ := r
    simp only [List.length_cons] at h1 ⊢
    split
    · simp only [List.length_cons] at h1 ⊢
      omega
    · have h2 := parsenum_length t1 0 false
      generalize parsenum t1 0 false = q at h2 ⊢
      obtain ⟨q1, q2, t2⟩ := q
      simp only at h2 ⊢
      omega
  · exact Nat.le_refl _

theorem doVerb_length (s : GoString) : (doVerb s).2.length ≤ s.length := by
  have h1 := skipFlags_length s
  have h2 := argNumber_length (skipFlags s) true
  unfold doVerb
  generalize argNumber (skipFlags s) true = r2 at h2 ⊢
  obtain ⟨s2, a2, g2⟩ := r2
  have h3 := parseWidth_length s2 a2 g2
  simp only at h2 ⊢
  generalize parseWidth s2 a2 g2 = r3 at h3 ⊢
  obtain ⟨o1, s3, a3, g3⟩ := r3
  have h4 := parsePrec_length s3 a3 g3
  simp only at h3 ⊢
  generalize parsePrec s3 a3 g3 = r4 at h4 ⊢
  obtain ⟨o2, s4, a4, g4⟩ := r4
  simp only at h4 ⊢
  have h5 : (if a4 = true then (s4, a4, g4) else argNumber s4 g4).1.length ≤ s4.length := by
    split
    · exact Nat.le_refl _
    · exact argNumber_length s4 g4
  generalize (if a4 = true then (s4, a4, g4) else argNumber s4 g4) = r5 at h5 ⊢
  obtain ⟨s5, a5, g5⟩ := r5
  simp only at h5 ⊢
  have hdrop : ∀ n, (s5.drop n).length ≤ s.length := by
    intro n
    simp only [List.length_drop]
    omega
  cases s5 with
  | nil => simp
  | cons c t =>
    simp only
    generalize (if c ≥ 128 then decodeRune (c :: t) else ((c : Int), 1)) = r6
    obtain ⟨verb, size⟩ := r6
    simp only
    split
    · exact hdrop _
    · split <;> exact hdrop _

theorem span_percent_length (s lit t : GoString) (c : Nat)
    (h : s.span (fun c => decide (c ≠ 37)) = (lit, c :: t)) : t.length < s.length := by
  have h1 : lit ++ c :: t = s := by
    have := List.takeWhile_append_dropWhile (fun c => decide (c ≠ 37)) s
    rw [List.span_eq_take_drop] at h
    rw [← (Prod.mk.inj h).1, ← (Prod.mk.inj h).2]
    exact this
  rw [← h1]
  simp
  omega

/-- More rounds than `length + 1` change nothing: `Sprintf0` is the result of
`doPrintf` run to the end of the format. -/
theorem doPrintf_fuel (n m : Nat) (s : GoString) (hn : s.length < n) (hm : s.length < m) :
    doPrintf n s = doPrintf m s := by
  induction n generalizing m s with
  | zero => omega
  | succ n ih =>
    cases m with
    | zero => omega
    | succ m =>
      simp only [doPrintf]
      rcases hsp : s.span (fun c => decide (c ≠ 37)) with ⟨lit, rest⟩
      cases rest with
      | nil => rfl
      | cons c t =>
        simp only
        have ht := span_percent_length s lit t c hsp
        have hv := doVerb_length t
        rw [ih m (doVerb t).2 (by omega) (by omega)]

theorem Sprintf0_eq_doPrintf (n : Nat) (s : GoString) (hn : s.length < n) :
    Sprintf0 s = doPrintf n s :=
  doPrintf_fuel _ _ s (Nat.lt_succ_self _) hn

/-! ## C1: colouring of the first token -/

theorem parseInputString_tokens {W : Type} (ic : Console W) (pfx t0 : GoString)
    (ts : List GoString)
    (h : (Split ic.inputString).filter (fun p => decide (p ≠ [])) = t0 :: ts) :
    parseInputString ic pfx =
      pfx ++ ((if t0 ∈ ic.commands.map Prod.fst then green else red) ++ t0 ++ reset ++
        (if ts ≠ [] then [32] else []) ++ List.intercalate [32] ts ++
        (if ic.inputString.getLast? = some 32 then [32] else [])) := by
  unfold parseInputString
  rw [nonEmptyComponents_eq_filter, h]
  simp only [hasCommandRange_eq, Join_eq_intercalate, Bool.false_or, decide_eq_true_eq]
  have hs : ((t0 :: ts).length > 1) ↔ (ts ≠ []) := by
    cases ts <;> simp
  simp only [hs, HasSuffixSpace_iff]
  by_cases hc : t0 ∈ ic.commands.map Prod.fst <;>
    by_cases hl : ic.inputString.getLast? = some 32 <;>
    simp only [hc, hl, if_true, if_false, List.append_assoc, List.append_nil]

/-- C1: when the buffer, split on spaces with the empty pieces discarded, is
`t0 :: ts`, `parseInputString pfx` is `pfx`, the green code if `t0` is a key of the
registry and the red code otherwise, `t0`, the reset code, one space if `ts` is not
empty, `ts` joined by single spaces, and one space if the buffer ends with a space.
The buffer `foo` is painted green when `foo` is registered and red under the empty
registry. -/
theorem C1_parseInputString_first_token :
    (∀ (W : Type) (ic : Console W) (pfx t0 : GoString) (ts : List GoString),
      (ic.inputString.splitOn 32).filter (fun p => decide (p ≠ [])) = t0 :: ts →
      parseInputString ic pfx =
        pfx ++ (if t0 ∈ ic.commands.map Prod.fst then green else red) ++ t0 ++ reset ++
          (if ts ≠ [] then [32] else []) ++ List.intercalate [32] ts ++
          (if ic.inputString.getLast? = some 32 then [32] else [])) ∧
    (∀ (W : Type) (ic : Console W) (pfx : GoString),
      ic.inputString = ascii "foo" → ascii "foo" ∈ ic.commands.map Prod.fst →
      parseInputString ic pfx = pfx ++ green ++ ascii "foo" ++ reset) ∧
    (∀ (W : Type) (ic : Console W) (pfx : GoString),
      ic.inputString = ascii "foo" → ic.commands = [] →
      parseInputString ic pfx = pfx ++ red ++ ascii "foo" ++ reset) := by
  refine ⟨?_, ?_, ?_⟩
  · intro W ic pfx t0 ts h
    rw [← Split_eq_splitOn] at h
    rw [parseInputString_tokens ic pfx t0 ts h]
    simp only [List.append_assoc]
  · intro W ic pfx hb hreg
    have h : (Split ic.inputString).filter (fun p => decide (p ≠ [])) = ascii "foo" :: [] := by
      rw [hb]; decide
    rw [parseInputString_tokens ic pfx _ _ h, hb]
    have hl : (ascii "foo").getLast? ≠ some 32 := by decide
    rw [if_pos hreg, if_neg hl, if_neg (by simp)]
    simp [List.intercalate]
  · intro W ic pfx hb hreg
    have h : (Split ic.inputString).filter (fun p => decide (p ≠ [])) = ascii "foo" :: [] := by
      rw [hb]; decide
    rw [parseInputString_tokens ic pfx _ _ h, hb, hreg]
    have hl : (ascii "foo").getLast? ≠ some 32 := by decide
    rw [if_neg (by simp), if_neg hl, if_neg (by simp)]
    simp [List.intercalate]

theorem C1_parseInputString_first_token_witness :
    (sampleConsole.inputString.splitOn 32).filter (fun p => decide (p ≠ [])) =
        ascii "add" :: [ascii "1", ascii "2"] ∧
      parseInputString sampleConsole (ascii "> ") =
        ascii "> " ++ green ++ ascii "add" ++ reset ++ ascii " 1 2 " :=
  ⟨by rw [← Split_eq_splitOn]; decide, by
    have h := C1_parseInputString_first_token.1 Unit sampleConsole (ascii "> ") (ascii "add")
      [ascii "1", ascii "2"] (by rw [← Split_eq_splitOn]; decide)
    rw [h]; decide⟩

/-! ## C2: dispatch to a registered command -/

theorem handleCommandRange_of_mem {W : Type} (e : Env W) (commandName : GoString)
    (args : List GoString) (action : Action W) (m : List (GoString × Action W))
    (nd : (m.map Prod.fst).Nodup) (hm : (commandName, action) ∈ m) :
    handleCommandRange e commandName args m = some (runAction e commandName args action) := by
  induction m with
  | nil => simp at hm
  | cons entry m ih =>
    obtain ⟨name, a⟩ := entry
    simp only [List.map_cons, List.nodup_cons] at nd
    simp only [handleCommandRange]
    rcases List.mem_cons.1 hm with heq | hin
    · have h1 : name = commandName := (congrArg Prod.fst heq).symm
      have h2 : a = action := (congrArg Prod.snd heq).symm
      simp [h1, h2]
    · have hne : name ≠ commandName := by
        intro h
        apply nd.1
        rw [h]
        exact List.mem_map_of_mem Prod.fst hin
      simp only [hne, if_false]
      exact ih nd.2 hin

theorem handleCommand_of_mem {W : Type} (e : Env W) (line : GoString) (action : Action W)
    (nd : (e.ic.commands.map Prod.fst).Nodup)
    (hm : ((Split line).headD [], action) ∈ e.ic.commands) :
    handleCommand e line =
      (runAction e ((Split line).headD []) (Split line).tail action, Outcome.ret ()) := by
  unfold handleCommand
  simp only [handleCommandRange_of_mem e _ _ action _ nd hm]

/-- C2: when the first piece of the line under `strings.Split(line, " ")` is a key of
the registry (a map: no key twice), `handleCommand` runs that key's action once on
the remaining pieces, empty pieces included: the caller's world afterwards is the
one this single run leaves, the call log grows by exactly this call (no other action,
not the unknown-command handler), the method returns normally, and when the action
returns nothing is written.  For `add 1 2` the arguments are `1`, `2`; for `add` there
are none; for `add  1` they are the empty string and `1`. -/
theorem C2_handleCommand_registered :
    (∀ (W : Type) (e : Env W) (line : GoString) (action : Action W),
      (e.ic.commands.map Prod.fst).Nodup →
      ((line.splitOn 32).headD [], action) ∈ e.ic.commands →
      (handleCommand e line).1.world = (action (line.splitOn 32).tail e.world).1 ∧
      (handleCommand e line).1.calls =
        e.calls ++ [Call.command ((line.splitOn 32).headD []) (line.splitOn 32).tail] ∧
      (handleCommand e line).2 = Outcome.ret () ∧
      (handleCommand e line).1.ic = e.ic ∧
      (∀ w, action (line.splitOn 32).tail e.world = (w, Outcome.ret ()) →
        (handleCommand e line).1.stdout = e.stdout)) ∧
    (ascii "add 1 2").splitOn 32 = [ascii "add", ascii "1", ascii "2"] ∧
    (ascii "add").splitOn 32 = [ascii "add"] ∧
    (ascii "add  1").splitOn 32 = [ascii "add", [], ascii "1"] := by
  refine ⟨?_, ?_, ?_, ?_⟩
  · intro W e line action nd hm
    rw [← Split_eq_splitOn] at hm ⊢
    rw [handleCommand_of_mem e line action nd hm]
    simp only [runAction]
    rcases hact : action (Split line).tail e.world with ⟨w, o⟩
    cases o with
    | ret u => simp
    | panic d => simp [Writef]
  · rw [← Split_eq_splitOn]; decide
  · rw [← Split_eq_splitOn]; decide
  · rw [← Split_eq_splitOn]; decide

theorem C2_handleCommand_registered_witness :
    (sampleEnv.ic.commands.map Prod.fst).Nodup ∧
      (((ascii "add  1").splitOn 32).headD [], logAction (ascii "add")) ∈ sampleEnv.ic.commands ∧
      (handleCommand sampleEnv (ascii "add  1")).1.world = [[ascii "add", [], ascii "1"]] ∧
      (handleCommand sampleEnv (ascii "add  1")).1.calls =
        [Call.command (ascii "add") [[], ascii "1"]] ∧
      (handleCommand sampleEnv (ascii "add  1")).1.stdout = [] := by
  have hsp : (ascii "add  1").splitOn 32 = [ascii "add", [], ascii "1"] :=
    C2_handleCommand_registered.2.2.2
  have nd : (sampleEnv.ic.commands.map Prod.fst).Nodup := by decide
  have hm : (((ascii "add  1").splitOn 32).headD [], logAction (ascii "add")) ∈
      sampleEnv.ic.commands := by
    rw [hsp]; simp [sampleEnv]
  have h := C2_handleCommand_registered.1 _ sampleEnv (ascii "add  1") (logAction (ascii "add"))
    nd hm
  refine ⟨nd, hm, ?_, ?_, ?_⟩
  · rw [h.1, hsp]; rfl
  · rw [h.2.1, hsp]; rfl
  · rw [h.2.2.2.2 _ rfl]; rfl

/-! ## C3: the report of an unknown command -/

theorem doPrintf_of_not_mem (n : Nat) (s : GoString) (h : 37 ∉ s) : doPrintf (n + 1) s = s := by
  have ht : s.takeWhile (fun c => decide (c ≠ 37)) = s := by
    rw [List.takeWhile_eq_self_iff]
    intro x hx
    have : x ≠ 37 := fun hx37 => h (hx37 ▸ hx)
    simpa using this
  have hd : s.dropWhile (fun c => decide (c ≠ 37)) = [] := by
    rw [List.dropWhile_eq_nil_iff]
    intro x hx
    have : x ≠ 37 := fun hx37 => h (hx37 ▸ hx)
    simpa using this
  simp only [doPrintf, List.span_eq_take_drop, ht, hd]

theorem Sprintf0_of_not_mem (s : GoString) (h : 37 ∉ s) : Sprintf0 s = s :=
  doPrintf_of_not_mem _ s h

/-- C3, at the line `50%` (not a command, no unknown-command handler): the code passes
the already formatted text to `Writef` as a format string, so the message is
`Unknown command: 50%!` + newline + `(MISSING)` and not `Unknown command: 50%`; the one
string written to the terminal is the carriage return and clear code followed by
`Unknown command: 50%!!(MISSING)`, a newline, `(MISSING)`, a newline and the prompt. -/
theorem C3_unknown_command_percent :
    Sprintf0 (unknownFormat (ascii "50%")) =
        ascii "Unknown command: 50%!" ++ [10] ++ ascii "(MISSING)" ∧
      Sprintf0 (unknownFormat (ascii "50%")) ≠ ascii "Unknown command: 50%" ∧
      (handleCommand sampleEnv (ascii "50%")).1.stdout =
        [[13, 27] ++ ascii "[KUnknown command: 50%!!(MISSING)" ++ [10] ++ ascii "(MISSING)" ++
          [10, 13] ++ ascii "> "] := by
  refine ⟨by decide, by decide, by rfl⟩

/-- Where the line has no percent sign the message handed to `Writef` is
`Unknown command: ` followed by the line. -/
theorem unknown_text_of_no_percent (line : GoString) (h : 37 ∉ line) :
    TrimRight (Sprintf0 (unknownFormat line)) [10] =
      TrimRight (ascii "Unknown command: " ++ line) [10] := by
  have h1 : 37 ∉ unknownFormat line := by
    unfold unknownFormat
    intro hm
    rcases List.mem_append.1 hm with hm | hm
    · rcases List.mem_append.1 hm with hm | hm
      · revert hm; decide
      · exact h hm
    · revert hm; decide
  rw [Sprintf0_of_not_mem _ h1]
  unfold unknownFormat TrimRight
  simp [List.reverse_append]

/-! ## C4: the buffer under character and Backspace events -/

/-- C4, at the events `é`, Backspace from the empty buffer: the character event
appends the two bytes of `é`, the Backspace removes only the last byte, and the buffer
is left holding the byte `0xC3`, while the fold of the edits over characters is empty. -/
theorem C4_backspace_removes_one_byte :
    (inputThread none ([Edit.char 0xE9, Edit.backspace].map (fun ed => KeyResult.ok ed.toKey))
        (newEnv ())).env.ic.inputString = [0xC3] ∧
      encodeRunes (specFold [Edit.char 0xE9, Edit.backspace]) = [] ∧
      (inputThread none [KeyResult.ok (Edit.char 0xE9).toKey] (newEnv ())).env.ic.inputString =
        [0xC3, 0xA9] := by
  refine ⟨by rfl, by rfl, by rfl⟩

theorem encodeRunes_append (a b : List Int) :
    encodeRunes (a ++ b) = encodeRunes a ++ encodeRunes b := by
  induction a with
  | nil => rfl
  | cons r a ih => simp [encodeRunes, ih]

theorem encodeRune_ascii (r : Int) (h : 0 < r ∧ r < 128) : encodeRune r = [r.toNat] := by
  unfold encodeRune
  have h1 : ¬ r < 0 := by omega
  have h2 : r.toNat ≤ 0x7F := by omega
  simp [h1, h2]

theorem encodeRunes_ascii (cs : List Int) (h : ∀ r ∈ cs, 0 < r ∧ r < 128) :
    encodeRunes cs = cs.map Int.toNat := by
  induction cs with
  | nil => rfl
  | cons r cs ih =>
    simp only [encodeRunes, List.map_cons]
    rw [encodeRune_ascii r (h r (List.mem_cons_self _ _)),
      ih (fun x hx => h x (List.mem_cons_of_mem _ hx))]
    rfl

theorem stepKey_char {W : Type} (s : Loop W) (r : Int) (hr : r ≠ 0) :
    (stepKey s (Edit.char r).toKey).env.ic.inputString = s.env.ic.inputString ++ encodeRune r ∧
      (stepKey s (Edit.char r).toKey).status = Status.listening := by
  simp [stepKey, editKey, Edit.toKey, KeyEnter, KeyBackspace, KeyBackspace2, KeyArrowUp,
    KeyArrowDown, KeyArrowLeft, KeyArrowRight, KeySpace, KeyCtrlC, hr]

theorem stepKey_backspace {W : Type} (s : Loop W) :
    (stepKey s Edit.backspace.toKey).env.ic.inputString = s.env.ic.inputString.dropLast ∧
      (stepKey s Edit.backspace.toKey).status = Status.listening := by
  by_cases hb : s.env.ic.inputString = []
  · simp [stepKey, editKey, Edit.toKey, KeyEnter, KeyBackspace, KeyCtrlC, hb]
  · simp [stepKey, editKey, Edit.toKey, KeyEnter, KeyBackspace, KeyCtrlC, hb,
      List.dropLast_eq_take]

/-- For character events below U+0080 the buffer is the fold of the edits: every
such character is one byte, and Backspace removes one byte. -/
theorem buffer_fold_ascii {W : Type} (edits : List Edit)
    (h : ∀ r, Edit.char r ∈ edits → 0 < r ∧ r < 128) (s : Loop W)
    (hs : s.status = Status.listening) (cs : List Int) (hcs : ∀ r ∈ cs, 0 < r ∧ r < 128)
    (hb : s.env.ic.inputString = encodeRunes cs) :
    (inputLoop (edits.map (fun ed => KeyResult.ok ed.toKey)) s).env.ic.inputString =
        encodeRunes (edits.foldl applyEdit cs) ∧
      (inputLoop (edits.map (fun ed => KeyResult.ok ed.toKey)) s).status = Status.listening := by
  induction edits generalizing s cs with
  | nil => exact ⟨hb, hs⟩
  | cons ed edits ih =>
    obtain ⟨env, driver, status⟩ := s
    simp only at hs hb
    subst hs
    simp only [List.map_cons, inputLoop, List.foldl_cons]
    have hrest : ∀ r, Edit.char r ∈ edits → 0 < r ∧ r < 128 :=
      fun r hr => h r (List.mem_cons_of_mem _ hr)
    cases ed with
    | char r =>
      have hr := h r (List.mem_cons_self _ _)
      have hstep := stepKey_char
        ({ env := env, driver := driver ++ [DriverCall.getKey], status := Status.listening } :
          Loop W) r (by omega)
      apply ih hrest _ hstep.2 (cs ++ [r])
      · intro x hx
        rcases List.mem_append.1 hx with hx | hx
        · exact hcs x hx
        · rw [List.mem_singleton.1 hx]; exact hr
      · rw [hstep.1, encodeRunes_append, ← hb]
        simp [encodeRunes]
    | backspace =>
      have hstep := stepKey_backspace
        ({ env := env, driver := driver ++ [DriverCall.getKey], status := Status.listening } :
          Loop W)
      apply ih hrest _ hstep.2 cs.dropLast
      · intro x hx
        exact hcs x (List.dropLast_subset cs hx)
      · rw [hstep.1]
        simp only
        rw [hb, encodeRunes_ascii cs hcs,
          encodeRunes_ascii cs.dropLast (fun x hx => hcs x (List.dropLast_subset cs hx))]
        simp [List.dropLast_eq_take, List.map_take]

theorem buffer_fold_ascii_start (edits : List Edit)
    (h : ∀ r, Edit.char r ∈ edits → 0 < r ∧ r < 128) :
    (inputThread none (edits.map (fun ed => KeyResult.ok ed.toKey))
        (newEnv ())).env.ic.inputString = encodeRunes (specFold edits) :=
  (buffer_fold_ascii edits h _ rfl [] (by simp) rfl).1

/-! ## C5: a panicking action is recovered -/

theorem Writef_prependOut {W : Type} (x : List GoString) (e : Env W) (text : GoString) :
    Writef (e.prependOut x) text = (Writef e text).prependOut x := by
  simp [Writef, Env.prependOut, List.append_assoc]

theorem runAction_prependOut {W : Type} (x : List GoString) (e : Env W) (name : GoString)
    (args : List GoString) (action : Action W) :
    runAction (e.prependOut x) name args action = (runAction e name args action).prependOut x := by
  unfold runAction
  have hw : (e.prependOut x).world = e.world := rfl
  rw [hw]
  rcases action args e.world with ⟨w, o⟩
  cases o with
  | ret u => rfl
  | panic d =>
    dsimp only
    simp [Writef, Env.prependOut, List.append_assoc]

theorem handleCommandRange_prependOut {W : Type} (x : List GoString) (e : Env W)
    (name : GoString) (args : List GoString) (m : List (GoString × Action W)) :
    handleCommandRange (e.prependOut x) name args m =
      (handleCommandRange e name args m).map (Env.prependOut x) := by
  induction m with
  | nil => rfl
  | cons entry m ih =>
    obtain ⟨k, a⟩ := entry
    simp only [handleCommandRange]
    by_cases hk : k = name
    · simp [hk, runAction_prependOut]
    · simp [hk, ih]

theorem handleCommand_prependOut {W : Type} (x : List GoString) (e : Env W) (line : GoString) :
    handleCommand (e.prependOut x) line =
      ((handleCommand e line).1.prependOut x, (handleCommand e line).2) := by
  unfold handleCommand
  have hic : (e.prependOut x).ic = e.ic := rfl
  have hw : (e.prependOut x).world = e.world := rfl
  simp only [hic, hw, handleCommandRange_prependOut]
  cases handleCommandRange e ((Split line).headD []) (Split line).tail e.ic.commands with
  | some e1 => rfl
  | none =>
    simp only [Option.map_none']
    cases e.ic.unknownCommandHandler with
    | none => simp [Writef, Env.prependOut, List.append_assoc]
    | some handler =>
      simp only
      rcases handler line e.world with ⟨w, o⟩
      cases o with
      | panic d => rfl
      | ret b =>
        cases b with
        | true => rfl
        | false =>
          dsimp only
          simp [Writef, Env.prependOut, List.append_assoc]

theorem handleCommand_stdout_append {W : Type} (x o : List GoString) (ic : Console W) (w : W)
    (c : List Call) (line : GoString) :
    handleCommand { ic := ic, stdout := x ++ o, world := w, calls := c } line =
      ((handleCommand { ic := ic, stdout := o, world := w, calls := c } line).1.prependOut x,
        (handleCommand { ic := ic, stdout := o, world := w, calls := c } line).2) :=
  handleCommand_prependOut x { ic := ic, stdout := o, world := w, calls := c } line

theorem stepKey_prependOut {W : Type} (x : List GoString) (s : Loop W) (ev : KeyEvent) :
    stepKey (s.prependOut x) ev = (stepKey s ev).prependOut x := by
  unfold stepKey
  have hic : (s.prependOut x).env.ic = s.env.ic := rfl
  rw [hic]
  rcases editKey s.env.ic ev with ⟨ic1, printed⟩
  simp only [Loop.prependOut, Env.prependOut, List.append_assoc]
  by_cases hc : ev.key = KeyCtrlC
  · simp [hc]
  · by_cases he : ev.key = KeyEnter
    · simp only [hc, he, if_false, if_true]
      rw [handleCommand_stdout_append]
      generalize handleCommand _ (TrimRight ic1.inputString [13, 10]) = res
      rcases res with ⟨e3, o⟩
      cases o <;> rfl
    · simp [hc, he]

theorem inputLoop_prependOut {W : Type} (x : List GoString) (ks : List KeyResult) (s : Loop W) :
    inputLoop ks (s.prependOut x) = (inputLoop ks s).prependOut x := by
  induction ks generalizing s with
  | nil => rfl
  | cons k ks ih =>
    obtain ⟨env, driver, status⟩ := s
    cases status with
    | listening =>
      cases k with
      | err e => rfl
      | ok ev =>
        show inputLoop ks (stepKey (Loop.prependOut x
            { env := env, driver := driver ++ [DriverCall.getKey], status := Status.listening }) ev) = _
        rw [stepKey_prependOut, ih]
        rfl
    | terminated => rfl
    | panicked d => rfl

theorem stepKey_enter {W : Type} (s : Loop W) :
    stepKey s enterEvent =
      match handleCommand { ic := { s.env.ic with inputString := [] },
                            stdout := s.env.stdout ++ [redraw s.env.ic],
                            world := s.env.world, calls := s.env.calls }
          (TrimRight s.env.ic.inputString [13, 10]) with
      | (env3, Outcome.ret _) => { env := env3, driver := s.driver, status := Status.listening }
      | (env3, Outcome.panic d) =>
        { env := env3, driver := s.driver ++ [DriverCall.close], status := Status.panicked d } := by
  simp [stepKey, editKey, enterEvent, KeyEnter, KeyBackspace, KeyBackspace2, KeyArrowUp,
    KeyArrowDown, KeyArrowLeft, KeyArrowRight, KeySpace, KeyCtrlC]

theorem handleCommand_panic {W : Type} (e : Env W) (line : GoString) (action : Action W) (w : W)
    (d : GoString) (nd : (e.ic.commands.map Prod.fst).Nodup)
    (hm : ((Split line).headD [], action) ∈ e.ic.commands)
    (hp : action (Split line).tail e.world = (w, Outcome.panic d)) :
    handleCommand e line =
      ({ ic := e.ic,
         stdout := e.stdout ++ [Sprintf0 (writefLine e.ic (failedText ((Split line).headD []) d))],
         world := w,
         calls := e.calls ++ [Call.command ((Split line).headD []) (Split line).tail] },
        Outcome.ret ()) := by
  rw [handleCommand_of_mem e line action nd hm]
  simp [runAction, hp, Writef]

theorem handleCommand_return {W : Type} (e : Env W) (line : GoString) (action : Action W) (w : W)
    (nd : (e.ic.commands.map Prod.fst).Nodup)
    (hm : ((Split line).headD [], action) ∈ e.ic.commands)
    (hp : action (Split line).tail e.world = (w, Outcome.ret ())) :
    handleCommand e line =
      ({ ic := e.ic, stdout := e.stdout, world := w,
         calls := e.calls ++ [Call.command ((Split line).headD []) (Split line).tail] },
        Outcome.ret ()) := by
  rw [handleCommand_of_mem e line action nd hm]
  simp [runAction, hp]

/-- C5: when the command name `X` of the line is registered with an action that panics
with detail `d`, `handleCommand` returns normally; it has written exactly one string,
the output line `Writef` produces for the message `Failed to run command 'X': ` + `d`.
In the read loop, an Enter on such a buffer leaves the loop listening: the events `ks`
that follow end in the same status, driver calls, console, world and call log as they
do from the state `afterEnter` a returning action leaves, and the terminal shows the
same strings with the one failure line inserted after the redraw of the Enter. -/
theorem C5_action_panic_recovered :
    (∀ (W : Type) (e : Env W) (line : GoString) (action : Action W) (w : W) (d : GoString),
      (e.ic.commands.map Prod.fst).Nodup →
      ((line.splitOn 32).headD [], action) ∈ e.ic.commands →
      action (line.splitOn 32).tail e.world = (w, Outcome.panic d) →
      handleCommand e line =
        ({ ic := e.ic,
           stdout := e.stdout ++ [Sprintf0 (writefLine e.ic
             (ascii "Failed to run command " ++ [39] ++ (line.splitOn 32).headD [] ++ [39] ++
               ascii ": " ++ d))],
           world := w,
           calls := e.calls ++
             [Call.command ((line.splitOn 32).headD []) (line.splitOn 32).tail] },
          Outcome.ret ())) ∧
    (∀ (W : Type) (s : Loop W) (action : Action W) (w : W) (d : GoString) (ks : List KeyResult),
      s.status = Status.listening →
      (s.env.ic.commands.map Prod.fst).Nodup →
      ((Split (TrimRight s.env.ic.inputString [13, 10])).headD [], action) ∈ s.env.ic.commands →
      action (Split (TrimRight s.env.ic.inputString [13, 10])).tail s.env.world =
        (w, Outcome.panic d) →
      (inputLoop [KeyResult.ok enterEvent] s).status = Status.listening ∧
      (inputLoop (KeyResult.ok enterEvent :: ks) s).status =
        (inputLoop ks (afterEnter s w)).status ∧
      (inputLoop (KeyResult.ok enterEvent :: ks) s).driver =
        (inputLoop ks (afterEnter s w)).driver ∧
      (inputLoop (KeyResult.ok enterEvent :: ks) s).env.ic =
        (inputLoop ks (afterEnter s w)).env.ic ∧
      (inputLoop (KeyResult.ok enterEvent :: ks) s).env.world =
        (inputLoop ks (afterEnter s w)).env.world ∧
      (inputLoop (KeyResult.ok enterEvent :: ks) s).env.calls =
        (inputLoop ks (afterEnter s w)).env.calls ∧
      ∃ rest,
        (inputLoop ks (afterEnter s w)).env.stdout =
          s.env.stdout ++ [redraw s.env.ic] ++ rest ∧
        (inputLoop (KeyResult.ok enterEvent :: ks) s).env.stdout =
          s.env.stdout ++ [redraw s.env.ic] ++
            [Sprintf0 (writefLine { s.env.ic with inputString := [] }
              (failedText ((Split (TrimRight s.env.ic.inputString [13, 10])).headD []) d))] ++
            rest) ∧
    (∀ (W : Type) (s : Loop W) (action : Action W) (w : W) (ks : List KeyResult),
      s.status = Status.listening →
      (s.env.ic.commands.map Prod.fst).Nodup →
      ((Split (TrimRight s.env.ic.inputString [13, 10])).headD [], action) ∈ s.env.ic.commands →
      action (Split (TrimRight s.env.ic.inputString [13, 10])).tail s.env.world =
        (w, Outcome.ret ()) →
      inputLoop (KeyResult.ok enterEvent :: ks) s = inputLoop ks (afterEnter s w)) := by
  refine ⟨?_, ?_, ?_⟩
  · intro W e line action w d nd hm hp
    rw [← Split_eq_splitOn] at hm hp ⊢
    rw [handleCommand_panic e line action w d nd hm hp]
    simp [failedText, List.append_assoc]
  · intro W s action w d ks hs nd hm hp
    obtain ⟨env, driver, status⟩ := s
    simp only at hs nd hm hp
    subst hs
    -- the state right after the Enter, and the state `z` with an empty terminal
    let z : Loop W := { afterEnter ⟨env, driver, Status.listening⟩ w with
      env := { (afterEnter ⟨env, driver, Status.listening⟩ w).env with stdout := [] } }
    have h0 : afterEnter ⟨env, driver, Status.listening⟩ w =
        z.prependOut (env.stdout ++ [redraw env.ic]) := by
      simp [z, afterEnter, Loop.prependOut, Env.prependOut]
    have hstep : ∀ ks1, inputLoop (KeyResult.ok enterEvent :: ks1) ⟨env, driver, Status.listening⟩ =
        inputLoop ks1 (z.prependOut (env.stdout ++ [redraw env.ic] ++
          [Sprintf0 (writefLine { env.ic with inputString := [] }
            (failedText ((Split (TrimRight env.ic.inputString [13, 10])).headD []) d))])) := by
      intro ks1
      simp only [inputLoop]
      rw [stepKey_enter]
      simp only
      rw [handleCommand_panic { ic := { env.ic with inputString := [] },
                                stdout := env.stdout ++ [redraw env.ic],
                                world := env.world, calls := env.calls }
        _ action w d nd hm hp]
      simp [z, afterEnter, Loop.prependOut, Env.prependOut]
    rw [hstep ks, hstep [], h0]
    simp only [inputLoop_prependOut]
    refine ⟨rfl, rfl, rfl, rfl, rfl, rfl, (inputLoop ks z).env.stdout, ?_, ?_⟩
    · simp [Loop.prependOut, Env.prependOut]
    · simp [Loop.prependOut, Env.prependOut]
  · intro W s action w ks hs nd hm hp
    obtain ⟨env, driver, status⟩ := s
    simp only at hs nd hm hp
    subst hs
    simp only [inputLoop]
    rw [stepKey_enter]
    simp only
    rw [handleCommand_return { ic := { env.ic with inputString := [] },
                               stdout := env.stdout ++ [redraw env.ic],
                               world := env.world, calls := env.calls }
      _ action w nd hm hp]
    simp [afterEnter]

theorem C5_action_panic_recovered_witness :
    (handleCommand sampleEnv (ascii "fail now")).1.stdout =
        [[13, 27] ++ ascii "[KFailed to run command " ++ [39] ++ ascii "fail" ++ [39] ++
          ascii ": boom" ++ [10, 13] ++ ascii "> "] ∧
      (inputLoop [KeyResult.ok enterEvent] sampleLoop).status = Status.listening ∧
      (inputLoop [KeyResult.ok enterEvent, KeyResult.ok { r := 120, key := 0 }]
        sampleLoop).env.ic.inputString = [120] := by
  have nd : (sampleEnv.ic.commands.map Prod.fst).Nodup := by decide
  have h1 := C5_action_panic_recovered.1 _ sampleEnv (ascii "fail now") boomAction []
    (ascii "boom") nd (List.mem_cons_of_mem _ (List.mem_cons_self _ _)) rfl
  have h2 := C5_action_panic_recovered.2.1 _ sampleLoop boomAction [] (ascii "boom")
    [KeyResult.ok { r := 120, key := 0 }] rfl nd
    (List.mem_cons_of_mem _ (List.mem_cons_self _ _)) rfl
  refine ⟨?_, h2.1, ?_⟩
  · rw [h1]; decide
  · rw [h2.2.2.2.1]; rfl

/-! ## C6: what `Writef` writes -/

theorem parseInputString_pfx {W : Type} (ic : Console W) (pfx : GoString) :
    parseInputString ic pfx = pfx ++ parseInputString ic [] := by
  simp [parseInputString]

/-- Where the assembled line holds no percent sign, `Writef` writes it unchanged:
carriage return, clear code, the message without its trailing newlines, a newline, a
carriage return, the prompt and the painted buffer. -/
theorem Writef_of_no_percent {W : Type} (e : Env W) (text : GoString)
    (h : 37 ∉ writefLine e.ic text) :
    (Writef e text).stdout =
      e.stdout ++ [[13, 27] ++ ascii "[K" ++ TrimRight text [10] ++ [10] ++ [13] ++ e.ic.prompt ++
        parseInputString e.ic []] := by
  simp only [Writef, Sprintf0_of_not_mem _ h]
  rw [writefLine, parseInputString_pfx]

/-- C6, at the call `Writef("100%%")` with the prompt `> ` and an empty buffer: the
formatted message is `100%`, and the assembled line is printed as a format string, so
the terminal receives `100%!` + newline + `(MISSING)` + carriage return + prompt instead
of `100%` + newline + carriage return + prompt.  Likewise with the message `hi` and the
buffer `50%`: the percent sign of the painted buffer swallows the escape byte that
follows it. -/
theorem C6_writef_reformats_line :
    Sprintf0 (ascii "100%%") = ascii "100%" ∧
      (Writef sampleEnv (ascii "100%")).stdout =
        [[13, 27] ++ ascii "[K100%!" ++ [10] ++ ascii "(MISSING)" ++ [13] ++ ascii "> "] ∧
      (Writef sampleEnv (ascii "100%")).stdout ≠
        sampleEnv.stdout ++ [[13, 27] ++ ascii "[K" ++ TrimRight (ascii "100%") [10] ++ [10] ++
          [13] ++ sampleEnv.ic.prompt ++ parseInputString sampleEnv.ic []] ∧
      (Writef percentEnv (ascii "hi")).stdout =
        [[13, 27] ++ ascii "[Khi" ++ [10, 13] ++ ascii "> " ++ red ++ ascii "50%!" ++ [27] ++
          ascii "(MISSING)[0m"] ∧
      (Writef percentEnv (ascii "hi")).stdout ≠
        percentEnv.stdout ++ [[13, 27] ++ ascii "[K" ++ TrimRight (ascii "hi") [10] ++ [10] ++
          [13] ++ percentEnv.ic.prompt ++ parseInputString percentEnv.ic []] := by
  refine ⟨by decide, by rfl, by decide, by rfl, by decide⟩

/-! ## C7: the commit on Enter -/

theorem runAction_ic {W : Type} (e : Env W) (name : GoString) (args : List GoString)
    (action : Action W) : (runAction e name args action).ic = e.ic := by
  unfold runAction
  rcases action args e.world with ⟨w, o⟩
  cases o <;> rfl

theorem handleCommandRange_ic {W : Type} (e e1 : Env W) (name : GoString) (args : List GoString)
    (m : List (GoString × Action W)) (h : handleCommandRange e name args m = some e1) :
    e1.ic = e.ic := by
  induction m with
  | nil => simp [handleCommandRange] at h
  | cons entry m ih =>
    obtain ⟨k, a⟩ := entry
    simp only [handleCommandRange] at h
    by_cases hk : k = name
    · simp only [hk, if_true, Option.some.injEq] at h
      rw [← h]
      exact runAction_ic e name args a
    · simp only [hk, if_false] at h
      exact ih h

theorem handleCommand_ic {W : Type} (e : Env W) (line : GoString) :
    (handleCommand e line).1.ic = e.ic := by
  unfold handleCommand
  simp only
  cases hr : handleCommandRange e ((Split line).headD []) (Split line).tail e.ic.commands with
  | some e1 => exact handleCommandRange_ic e e1 _ _ _ hr
  | none =>
    cases e.ic.unknownCommandHandler with
    | none => rfl
    | some handler =>
      simp only
      rcases handler line e.world with ⟨w, o⟩
      cases o with
      | panic d => rfl
      | ret b => cases b <;> rfl

theorem TrimRight_eq_rdropWhile (s : GoString) (cutset : List Nat) :
    TrimRight s cutset = s.rdropWhile (fun c => decide (c ∈ cutset)) := rfl

/-- C7: on an Enter event with the buffer `b`, the read loop calls `handleCommand` on
`b` without its trailing `\r` and `\n` bytes (what is cut is a run of such bytes at the
end, and what is left does not end in one), in an environment whose buffer is already
empty; afterwards the buffer is empty and the prompt, the registry and the
unknown-command handler are the ones from before the Enter. -/
theorem C7_enter_commits_line :
    (∀ (W : Type) (s : Loop W),
      stepKey s enterEvent =
        (match handleCommand { ic := { inputString := [], prompt := s.env.ic.prompt,
                                        unknownCommandHandler := s.env.ic.unknownCommandHandler,
                                        commands := s.env.ic.commands },
                               stdout := s.env.stdout ++ [redraw s.env.ic],
                               world := s.env.world, calls := s.env.calls }
            (TrimRight s.env.ic.inputString [13, 10]) with
        | (env3, Outcome.ret _) => { env := env3, driver := s.driver, status := Status.listening }
        | (env3, Outcome.panic d) =>
          { env := env3, driver := s.driver ++ [DriverCall.close],
            status := Status.panicked d })) ∧
    (∀ (W : Type) (s : Loop W),
      (stepKey s enterEvent).env.ic.inputString = [] ∧
      (stepKey s enterEvent).env.ic.prompt = s.env.ic.prompt ∧
      (stepKey s enterEvent).env.ic.commands = s.env.ic.commands ∧
      (stepKey s enterEvent).env.ic.unknownCommandHandler = s.env.ic.unknownCommandHandler) ∧
    (∀ b : GoString, ∃ cut : GoString,
      b = TrimRight b [13, 10] ++ cut ∧ (∀ c ∈ cut, c = 13 ∨ c = 10) ∧
      ∀ c, (TrimRight b [13, 10]).getLast? = some c → c ≠ 13 ∧ c ≠ 10) := by
  refine ⟨fun W s => stepKey_enter s, ?_, ?_⟩
  · intro W s
    have hic : (stepKey s enterEvent).env.ic = { s.env.ic with inputString := [] } := by
      rw [stepKey_enter]
      have h := handleCommand_ic { ic := { s.env.ic with inputString := [] },
                                   stdout := s.env.stdout ++ [redraw s.env.ic],
                                   world := s.env.world, calls := s.env.calls }
        (TrimRight s.env.ic.inputString [13, 10])
      revert h
      generalize handleCommand _ (TrimRight s.env.ic.inputString [13, 10]) = res
      rcases res with ⟨e3, o⟩
      intro h
      cases o <;> exact h
    rw [hic]
    exact ⟨rfl, rfl, rfl, rfl⟩
  · intro b
    refine ⟨(b.reverse.takeWhile (fun c => decide (c ∈ [13, 10]))).reverse, ?_, ?_, ?_⟩
    · unfold TrimRight
      rw [← List.reverse_append, List.takeWhile_append_dropWhile, List.reverse_reverse]
    · intro c hc
      have h1 := List.mem_takeWhile_imp (List.mem_reverse.1 hc)
      simpa using h1
    · intro c hc
      rw [TrimRight_eq_rdropWhile] at hc
      by_cases hnil : b.rdropWhile (fun c => decide (c ∈ [13, 10])) = []
      · rw [hnil] at hc; simp at hc
      · have h1 := List.rdropWhile_last_not (fun c => decide (c ∈ [13, 10])) b hnil
        rw [List.getLast?_eq_getLast _ hnil] at hc
        have h2 : (b.rdropWhile (fun c => decide (c ∈ [13, 10]))).getLast hnil = c :=
          Option.some.inj hc
        rw [h2] at h1
        simpa using h1

theorem C7_enter_commits_line_witness :
    (stepKey sampleLoop enterEvent).env.ic.inputString = [] ∧
      (stepKey sampleLoop enterEvent).env.ic.prompt = ascii "> " ∧
      (stepKey sampleLoop enterEvent).env.calls = [Call.command (ascii "fail") []] :=
  ⟨(C7_enter_commits_line.2.1 _ sampleLoop).1, (C7_enter_commits_line.2.1 _ sampleLoop).2.1,
    by rw [C7_enter_commits_line.1]; rfl⟩

/-! ## C8: nothing is read after Ctrl-C -/

theorem inputLoop_of_not_listening {W : Type} (ks : List KeyResult) (s : Loop W)
    (h : s.status ≠ Status.listening) : inputLoop ks s = s := by
  cases ks with
  | nil => rfl
  | cons k ks =>
    obtain ⟨env, driver, status⟩ := s
    cases status with
    | listening => exact absurd rfl h
    | terminated => rfl
    | panicked d => rfl

theorem inputLoop_append {W : Type} (ks1 ks2 : List KeyResult) (s : Loop W) :
    inputLoop (ks1 ++ ks2) s = inputLoop ks2 (inputLoop ks1 s) := by
  induction ks1 generalizing s with
  | nil => rfl
  | cons k ks1 ih =>
    simp only [List.cons_append, inputLoop]
    cases hs : s.status with
    | listening =>
      cases k with
      | err e => simp only; rw [inputLoop_of_not_listening]; simp
      | ok ev => exact ih _
    | terminated => simp only; rw [inputLoop_of_not_listening]; simp [hs]
    | panicked d => simp only; rw [inputLoop_of_not_listening]; simp [hs]

theorem stepKey_ctrlC_status {W : Type} (s : Loop W) (r : Int) :
    (stepKey s { r := r, key := KeyCtrlC }).status = Status.terminated := by
  unfold stepKey
  rcases editKey s.env.ic { r := r, key := KeyCtrlC } with ⟨ic1, printed⟩
  simp

theorem inputLoop_ctrlC_status {W : Type} (s : Loop W) (r : Int) :
    (inputLoop [KeyResult.ok { r := r, key := KeyCtrlC }] s).status ≠ Status.listening ∧
      (s.status = Status.listening →
        (inputLoop [KeyResult.ok { r := r, key := KeyCtrlC }] s).status = Status.terminated) := by
  simp only [inputLoop]
  cases hs : s.status with
  | listening => simp [stepKey_ctrlC_status]
  | terminated => simp [hs]
  | panicked d => simp [hs]

/-- C8: for all key results `pre` and `post` (so in particular for a `pre` without
Ctrl-C), running `inputThread` on `pre`, a Ctrl-C event and `post` ends in the same
state (console, terminal output, world, call log, driver calls and status) as running
it on `pre` and the Ctrl-C alone; after the Ctrl-C the loop is not listening, and it is
terminated whenever it was still listening when the Ctrl-C arrived. -/
theorem C8_ctrlC_ends_session :
    ∀ (W : Type) (openErr : Option GoString) (pre post : List KeyResult) (r : Int) (e : Env W),
      inputThread openErr (pre ++ [KeyResult.ok { r := r, key := KeyCtrlC }] ++ post) e =
        inputThread openErr (pre ++ [KeyResult.ok { r := r, key := KeyCtrlC }]) e ∧
      (inputThread openErr (pre ++ [KeyResult.ok { r := r, key := KeyCtrlC }]) e).status ≠
        Status.listening ∧
      ((inputThread openErr pre e).status = Status.listening →
        (inputThread openErr (pre ++ [KeyResult.ok { r := r, key := KeyCtrlC }]) e).status =
          Status.terminated) := by
  intro W openErr pre post r e
  cases openErr with
  | some err => simp [inputThread]
  | none =>
    simp only [inputThread, inputLoop_append]
    refine ⟨?_, (inputLoop_ctrlC_status _ r).1, (inputLoop_ctrlC_status _ r).2⟩
    exact inputLoop_of_not_listening post _ (inputLoop_ctrlC_status _ r).1

theorem C8_ctrlC_ends_session_witness :
    (inputThread none [KeyResult.ok { r := 97, key := 0 }] (newEnv ())).status =
        Status.listening ∧
      (inputThread none ([KeyResult.ok { r := 97, key := 0 }] ++ [KeyResult.ok ctrlCEvent])
        (newEnv ())).status = Status.terminated :=
  ⟨rfl, (C8_ctrlC_ends_session Unit none [KeyResult.ok { r := 97, key := 0 }] [] 0
    (newEnv ())).2.2 rfl⟩

/-! ## C9: the unknown-command handler -/

theorem handleCommandRange_eq_mapGet {W : Type} (e : Env W) (name : GoString)
    (args : List GoString) (m : List (GoString × Action W)) :
    handleCommandRange e name args m = (mapGet m name).map (runAction e name args) := by
  induction m with
  | nil => rfl
  | cons entry m ih =>
    obtain ⟨k, a⟩ := entry
    simp only [handleCommandRange, mapGet]
    by_cases hk : k = name
    · simp [hk]
    · simp [hk, ih]

theorem mapGet_eq_none {V : Type} (m : List (GoString × V)) (k : GoString)
    (h : k ∉ m.map Prod.fst) : mapGet m k = none := by
  induction m with
  | nil => rfl
  | cons entry m ih =>
    obtain ⟨k0, v0⟩ := entry
    simp only [List.map_cons, List.mem_cons, not_or] at h
    simp only [mapGet]
    rw [if_neg (fun hk => h.1 hk.symm)]
    exact ih h.2

theorem handleCommand_unknown {W : Type} (e : Env W) (line : GoString)
    (h : (Split line).headD [] ∉ e.ic.commands.map Prod.fst) :
    handleCommand e line =
      match e.ic.unknownCommandHandler with
      | some handler =>
        match handler line e.world with
        | (w, Outcome.ret true) =>
          ({ e with world := w, calls := e.calls ++ [Call.unknown line] }, Outcome.ret ())
        | (w, Outcome.ret false) =>
          (Writef { e with world := w, calls := e.calls ++ [Call.unknown line] }
            (Sprintf0 (unknownFormat line)), Outcome.ret ())
        | (w, Outcome.panic d) =>
          ({ e with world := w, calls := e.calls ++ [Call.unknown line] }, Outcome.panic d)
      | none => (Writef e (Sprintf0 (unknownFormat line)), Outcome.ret ()) := by
  unfold handleCommand
  simp only [handleCommandRange_eq_mapGet, mapGet_eq_none _ _ h, Option.map_none']

/-- C9: when the first piece of the line is not a key of the registry and an
unknown-command handler is installed, `handleCommand` runs it once on the whole line
(the world afterwards is the one this single run leaves, the call log grows by exactly
this call); when it returns true nothing is written, and when it returns false the
string written is the one written with no handler installed, the `Writef` line of the
format `Unknown command: ` + line + newline.  For a line whose first piece is a key of
the registry the call log grows by the command call only, and the world is the one
the action leaves.  `SetUnknownCommandHandler` installs the handler and changes nothing
else. -/
theorem C9_unknown_command_handler :
    (∀ (W : Type) (e : Env W) (line : GoString) (handler : UnknownHandler W),
      (line.splitOn 32).headD [] ∉ e.ic.commands.map Prod.fst →
      e.ic.unknownCommandHandler = some handler →
      (handleCommand e line).1.world = (handler line e.world).1 ∧
      (handleCommand e line).1.calls = e.calls ++ [Call.unknown line] ∧
      (∀ w, handler line e.world = (w, Outcome.ret true) →
        (handleCommand e line).1.stdout = e.stdout) ∧
      (∀ w, handler line e.world = (w, Outcome.ret false) →
        (handleCommand e line).1.stdout =
          e.stdout ++ [Sprintf0 (writefLine e.ic
            (Sprintf0 (ascii "Unknown command: " ++ line ++ [10])))] ∧
        (handleCommand e line).1.stdout =
          (handleCommand { e with ic := SetUnknownCommandHandler e.ic none } line).1.stdout)) ∧
    (∀ (W : Type) (e : Env W) (line : GoString) (action : Action W),
      (e.ic.commands.map Prod.fst).Nodup →
      ((line.splitOn 32).headD [], action) ∈ e.ic.commands →
      (handleCommand e line).1.calls =
        e.calls ++ [Call.command ((line.splitOn 32).headD []) (line.splitOn 32).tail] ∧
      (handleCommand e line).1.world = (action (line.splitOn 32).tail e.world).1) ∧
    (∀ (W : Type) (ic : Console W) (handler : Option (UnknownHandler W)),
      (SetUnknownCommandHandler ic handler).unknownCommandHandler = handler ∧
      (SetUnknownCommandHandler ic handler).commands = ic.commands ∧
      (SetUnknownCommandHandler ic handler).prompt = ic.prompt ∧
      (SetUnknownCommandHandler ic handler).inputString = ic.inputString) := by
  refine ⟨?_, ?_, fun W ic handler => ⟨rfl, rfl, rfl, rfl⟩⟩
  · intro W e line handler hn hu
    rw [← Split_eq_splitOn] at hn
    have hn2 : (Split line).headD [] ∉
        ({ e with ic := SetUnknownCommandHandler e.ic none } : Env W).ic.commands.map Prod.fst := hn
    rw [handleCommand_unknown _ line hn2, handleCommand_unknown e line hn, hu]
    simp only [SetUnknownCommandHandler]
    rcases hh : handler line e.world with ⟨w, o⟩
    cases o with
    | panic d => simp
    | ret b =>
      cases b with
      | true => simp
      | false => simp [Writef, unknownFormat, writefLine, parseInputString]
  · intro W e line action nd hm
    rw [← Split_eq_splitOn] at hm ⊢
    rw [handleCommand_of_mem e line action nd hm]
    simp only [runAction]
    rcases hact : action (Split line).tail e.world with ⟨w, o⟩
    cases o with
    | ret u => simp
    | panic d => simp [Writef]

theorem C9_unknown_command_handler_witness :
    (handleCommand (unknownEnv true) (ascii "bogus 1")).1.world =
        [[ascii "unknown", ascii "bogus 1"]] ∧
      (handleCommand (unknownEnv true) (ascii "bogus 1")).1.stdout = [] ∧
      (handleCommand (unknownEnv false) (ascii "bogus 1")).1.stdout =
        [[13, 27] ++ ascii "[KUnknown command: bogus 1" ++ [10, 13] ++ ascii "> "] ∧
      (handleCommand (unknownEnv true) (ascii "add 1")).1.calls =
        [Call.command (ascii "add") [ascii "1"]] := by
  have hn : ((ascii "bogus 1").splitOn 32).headD [] ∉
      (unknownEnv true).ic.commands.map Prod.fst := by
    rw [← Split_eq_splitOn]; decide
  have ht := C9_unknown_command_handler.1 _ (unknownEnv true) (ascii "bogus 1")
    (logUnknown true) hn rfl
  have hf := C9_unknown_command_handler.1 _ (unknownEnv false) (ascii "bogus 1")
    (logUnknown false) hn rfl
  have hsp : (ascii "add 1").splitOn 32 = [ascii "add", ascii "1"] := by
    rw [← Split_eq_splitOn]; decide
  have hr := C9_unknown_command_handler.2.1 _ (unknownEnv true) (ascii "add 1")
    (logAction (ascii "add")) (by decide) (by rw [hsp]; exact List.mem_cons_self _ _)
  refine ⟨?_, ?_, ?_, ?_⟩
  · rw [ht.1]; rfl
  · rw [ht.2.2.1 _ rfl]; rfl
  · rw [(hf.2.2.2 _ rfl).1]; decide
  · rw [hr.1, hsp]; rfl

/-! ## C10: the last registration wins -/

theorem mapGet_mapSet_self {V : Type} (m : List (GoString × V)) (k : GoString) (v : V) :
    mapGet (mapSet m k v) k = some v := by
  induction m with
  | nil => simp [mapSet, mapGet]
  | cons entry m ih =>
    obtain ⟨k0, v0⟩ := entry
    by_cases hk : k0 = k
    · simp [mapSet, mapGet, hk]
    · simp [mapSet, mapGet, hk, ih]

theorem mapGet_mapSet_other {V : Type} (m : List (GoString × V)) (k n : GoString) (v : V)
    (h : n ≠ k) : mapGet (mapSet m k v) n = mapGet m n := by
  induction m with
  | nil => simp [mapSet, mapGet, h.symm]
  | cons entry m ih =>
    obtain ⟨k0, v0⟩ := entry
    by_cases hk : k0 = k
    · have hkn : ¬ k0 = n := fun hkn => h (hkn.symm.trans hk)
      have hkn2 : ¬ k = n := fun hkn => h hkn.symm
      simp [mapSet, mapGet, hk, hkn2]
    · by_cases hn : k0 = n
      · subst hn
        simp [mapSet, mapGet, hk]
      · simp [mapSet, mapGet, hk, hn, ih]

theorem mem_mapSet_other {V : Type} (m : List (GoString × V)) (k n : GoString) (v a : V)
    (h : n ≠ k) : (n, a) ∈ mapSet m k v ↔ (n, a) ∈ m := by
  induction m with
  | nil => simp [mapSet, h]
  | cons entry m ih =>
    obtain ⟨k0, v0⟩ := entry
    by_cases hk : k0 = k
    · have hkn : ¬ n = k0 := fun hkn => h (hkn.trans hk)
      simp [mapSet, hk, h, hkn]
    · simp [mapSet, hk, ih]

theorem mapSet_keys_nodup {V : Type} (m : List (GoString × V)) (k : GoString) (v : V)
    (nd : (m.map Prod.fst).Nodup) : ((mapSet m k v).map Prod.fst).Nodup := by
  induction m with
  | nil => simp [mapSet]
  | cons entry m ih =>
    obtain ⟨k0, v0⟩ := entry
    simp only [List.map_cons, List.nodup_cons] at nd
    by_cases hk : k0 = k
    · subst hk
      simpa [mapSet] using nd
    · simp only [mapSet, hk, if_false, List.map_cons, List.nodup_cons]
      refine ⟨?_, ih nd.2⟩
      intro hmem
      rcases List.mem_map.1 hmem with ⟨⟨n, a⟩, hna, hn⟩
      simp only at hn
      subst hn
      have := (mem_mapSet_other m k n v a hk).1 hna
      exact nd.1 (List.mem_map_of_mem Prod.fst this)

/-- C10: after `RegisterCommand(name, h1)` and then `RegisterCommand(name, h2)`, for any
name (the empty one included), a line whose command name is `name` runs `h2` once on
the arguments: the world afterwards is the one `h2` leaves, whatever `h1` is, and the
call log grows by this one call.  Every other name reads the same action as before,
has the same entries as before, and the keys stay distinct; buffer, prompt and
unknown-command handler are untouched. -/
theorem C10_register_last_wins :
    (∀ (W : Type) (e : Env W) (ic : Console W) (name line : GoString) (h1 h2 : Action W),
      e.ic = RegisterCommand (RegisterCommand ic name h1) name h2 →
      (line.splitOn 32).headD [] = name →
      (handleCommand e line).1.world = (h2 (line.splitOn 32).tail e.world).1 ∧
      (handleCommand e line).1.calls =
        e.calls ++ [Call.command name (line.splitOn 32).tail] ∧
      (handleCommand e line).2 = Outcome.ret ()) ∧
    (∀ (W : Type) (ic : Console W) (name : GoString) (h1 h2 : Action W),
      (∀ n, n ≠ name →
        mapGet (RegisterCommand (RegisterCommand ic name h1) name h2).commands n =
          mapGet ic.commands n) ∧
      (∀ n a, n ≠ name →
        ((n, a) ∈ (RegisterCommand (RegisterCommand ic name h1) name h2).commands ↔
          (n, a) ∈ ic.commands)) ∧
      mapGet (RegisterCommand (RegisterCommand ic name h1) name h2).commands name = some h2 ∧
      ((ic.commands.map Prod.fst).Nodup →
        ((RegisterCommand (RegisterCommand ic name h1) name h2).commands.map Prod.fst).Nodup) ∧
      (RegisterCommand (RegisterCommand ic name h1) name h2).inputString = ic.inputString ∧
      (RegisterCommand (RegisterCommand ic name h1) name h2).prompt = ic.prompt ∧
      (RegisterCommand (RegisterCommand ic name h1) name h2).unknownCommandHandler =
        ic.unknownCommandHandler) := by
  refine ⟨?_, ?_⟩
  · intro W e ic name line h1 h2 he hname
    rw [← Split_eq_splitOn] at hname ⊢
    unfold handleCommand
    simp only [handleCommandRange_eq_mapGet, hname, he, RegisterCommand, mapGet_mapSet_self,
      Option.map_some']
    simp only [runAction]
    rcases hact : h2 (Split line).tail e.world with ⟨w, o⟩
    cases o with
    | ret u => simp
    | panic d => simp [Writef]
  · intro W ic name h1 h2
    refine ⟨?_, ?_, ?_, ?_, rfl, rfl, rfl⟩
    · intro n hn
      simp only [RegisterCommand]
      rw [mapGet_mapSet_other _ _ _ _ hn, mapGet_mapSet_other _ _ _ _ hn]
    · intro n a hn
      simp only [RegisterCommand]
      rw [mem_mapSet_other _ _ _ _ _ hn, mem_mapSet_other _ _ _ _ _ hn]
    · simp only [RegisterCommand]
      exact mapGet_mapSet_self _ _ _
    · intro nd
      simp only [RegisterCommand]
      exact mapSet_keys_nodup _ _ _ (mapSet_keys_nodup _ _ _ nd)

theorem C10_register_last_wins_witness :
    ((ascii "add 7").splitOn 32).headD [] = ascii "add" ∧
      (handleCommand twiceEnv (ascii "add 7")).1.world = [[ascii "h2", ascii "7"]] ∧
      (handleCommand twiceEnv (ascii "add 7")).1.calls =
        [Call.command (ascii "add") [ascii "7"]] := by
  have hsp : (ascii "add 7").splitOn 32 = [ascii "add", ascii "7"] := by
    rw [← Split_eq_splitOn]; decide
  have hname : ((ascii "add 7").splitOn 32).headD [] = ascii "add" := by rw [hsp]; rfl
  have h := C10_register_last_wins.1 _ twiceEnv sampleEnv.ic (ascii "add") (ascii "add 7")
    (logAction (ascii "h1")) (logAction (ascii "h2")) rfl hname
  refine ⟨hname, ?_, ?_⟩
  · rw [h.1, hsp]; rfl
  · rw [h.2.1, hsp]; rfl

/-! ## C12: a buffer of spaces is painted as it is -/

theorem nonEmptyComponents_Split_spaces (s : GoString) (h : ∀ c ∈ s, c = 32) :
    nonEmptyComponents (Split s) = [] := by
  induction s with
  | nil => simp [Split, nonEmptyComponents]
  | cons c cs ih =>
    have hc : c = 32 := h c (List.mem_cons_self _ _)
    simp only [Split, hc, if_true, nonEmptyComponents]
    simpa using ih (fun x hx => h x (List.mem_cons_of_mem _ hx))

/-- C12: when every byte of the buffer is a space (the empty buffer included),
`parseInputString pfx` is `pfx` followed by the buffer, with nothing added; for the
empty buffer it is `pfx`. -/
theorem C12_spaces_only_buffer :
    (∀ (W : Type) (ic : Console W) (pfx : GoString),
      (∀ c ∈ ic.inputString, c = 32) →
      parseInputString ic pfx = pfx ++ ic.inputString) ∧
    (∀ (W : Type) (ic : Console W) (pfx : GoString),
      ic.inputString = [] → parseInputString ic pfx = pfx) := by
  have key : ∀ (W : Type) (ic : Console W) (pfx : GoString),
      (∀ c ∈ ic.inputString, c = 32) → parseInputString ic pfx = pfx ++ ic.inputString := by
    intro W ic pfx h
    unfold parseInputString
    simp only [nonEmptyComponents_Split_spaces _ h]
  refine ⟨key, ?_⟩
  intro W ic pfx h
  rw [key W ic pfx (by rw [h]; simp), h, List.append_nil]

theorem C12_spaces_only_buffer_witness :
    (∀ c ∈ ({ sampleConsole with inputString := [32, 32, 32] } : Console Unit).inputString,
        c = 32) ∧
      parseInputString ({ sampleConsole with inputString := [32, 32, 32] } : Console Unit)
        (ascii "> ") = ascii ">    " :=
  ⟨by decide, by
    rw [C12_spaces_only_buffer.1 Unit _ (ascii "> ") (by decide)]
    decide⟩

/-! ## C13: trailing spaces are painted as one space -/

theorem Split_replicate_spaces (k : Nat) :
    Split (List.replicate k 32) = List.replicate (k + 1) [] := by
  induction k with
  | zero => rfl
  | succ k ih => simp [List.replicate_succ, Split, ih]

theorem Split_append_spaces (b : GoString) (k : Nat) :
    Split (b ++ List.replicate (k + 1) 32) = Split b ++ List.replicate (k + 1) [] := by
  induction b with
  | nil =>
    rw [List.nil_append, Split_replicate_spaces]
    simp [Split, List.replicate_succ]
  | cons c cs ih =>
    rw [List.cons_append]
    simp only [Split]
    by_cases hc : c = 32
    · simp only [hc, if_true]
      rw [ih]
      rfl
    · simp only [hc, if_false]
      rw [ih]
      cases hsp : Split cs with
      | nil => exact absurd hsp (Split_ne_nil cs)
      | cons p ps => rfl

theorem nonEmptyComponents_append_empties (l : List GoString) (n : Nat) :
    nonEmptyComponents (l ++ List.replicate n []) = nonEmptyComponents l := by
  rw [nonEmptyComponents_eq_filter, nonEmptyComponents_eq_filter, List.filter_append]
  have h : (List.replicate n ([] : GoString)).filter (fun p => decide (p ≠ [])) = [] := by
    rw [List.filter_eq_nil_iff]
    intro a ha
    rw [List.eq_of_mem_replicate ha]
    simp
  rw [h, List.append_nil]

theorem nonEmptyComponents_Split_ne_nil (b : GoString) (h : ∃ c ∈ b, c ≠ 32) :
    nonEmptyComponents (Split b) ≠ [] := by
  induction b with
  | nil => simp at h
  | cons c cs ih =>
    by_cases hc : c = 32
    · simp only [Split, hc, if_true, nonEmptyComponents]
      have h2 : ∃ x ∈ cs, x ≠ 32 := by
        obtain ⟨x, hx, hne⟩ := h
        rcases List.mem_cons.1 hx with hx | hx
        · exact absurd (hx.trans hc) hne
        · exact ⟨x, hx, hne⟩
      simpa using ih h2
    · simp only [Split, hc, if_false]
      cases hsp : Split cs with
      | nil => exact absurd hsp (Split_ne_nil cs)
      | cons p ps => simp [nonEmptyComponents]

theorem HasSuffixSpace_append_spaces (b : GoString) (k : Nat) :
    HasSuffixSpace (b ++ List.replicate (k + 1) 32) = true := by
  rw [HasSuffixSpace_iff, List.replicate_succ', ← List.append_assoc, List.getLast?_concat]

/-- C13: for a buffer `b` with a non-space byte that does not end with a space, and
`k` at least one, painting `b` followed by `k` spaces gives the painting of `b` followed
by exactly one space. -/
theorem C13_trailing_spaces_collapse :
    ∀ (W : Type) (ic : Console W) (pfx b : GoString) (k : Nat),
      (∃ c ∈ b, c ≠ 32) → b.getLast? ≠ some 32 → 1 ≤ k →
      parseInputString { ic with inputString := b ++ List.replicate k 32 } pfx =
        parseInputString { ic with inputString := b } pfx ++ [32] := by
  intro W ic pfx b k hne hlast hk
  obtain ⟨j, rfl⟩ : ∃ j, k = j + 1 := ⟨k - 1, by omega⟩
  have hsuf : HasSuffixSpace b = false := by
    cases hb : HasSuffixSpace b with
    | false => rfl
    | true => exact absurd ((HasSuffixSpace_iff b).1 hb) hlast
  unfold parseInputString
  simp only [Split_append_spaces, nonEmptyComponents_append_empties,
    HasSuffixSpace_append_spaces, hsuf]
  cases htok : nonEmptyComponents (Split b) with
  | nil => exact absurd htok (nonEmptyComponents_Split_ne_nil b hne)
  | cons first others => simp

theorem C13_trailing_spaces_collapse_witness :
    (∃ c ∈ ascii "add 1", c ≠ 32) ∧ (ascii "add 1").getLast? ≠ some 32 ∧ 1 ≤ 3 ∧
      parseInputString { sampleConsole with inputString := ascii "add 1" ++ List.replicate 3 32 }
        (ascii "> ") = ascii "> " ++ green ++ ascii "add" ++ reset ++ ascii " 1 " := by
  have hne : ∃ c ∈ ascii "add 1", c ≠ 32 := ⟨97, by decide, by decide⟩
  refine ⟨hne, by decide, by decide, ?_⟩
  rw [C13_trailing_spaces_collapse Unit sampleConsole (ascii "> ") (ascii "add 1") 3 hne
    (by decide) (by decide)]
  decide

/-! ## C14: the redraw after a key event -/

theorem mem_of_mem_Split (b : GoString) :
    ∀ p ∈ Split b, ∀ c ∈ p, c ∈ b := by
  induction b with
  | nil =>
    intro p hp c hc
    simp only [Split, List.mem_singleton] at hp
    rw [hp] at hc
    exact absurd hc (List.not_mem_nil c)
  | cons c0 cs ih =>
    intro p hp c hc
    simp only [Split] at hp
    by_cases h0 : c0 = 32
    · simp only [h0, if_true, List.mem_cons] at hp
      rcases hp with hp | hp
      · rw [hp] at hc
        exact absurd hc (List.not_mem_nil c)
      · exact List.mem_cons_of_mem _ (ih p hp c hc)
    · simp only [h0, if_false] at hp
      cases hsp : Split cs with
      | nil => exact absurd hsp (Split_ne_nil cs)
      | cons p0 ps =>
        rw [hsp] at hp ih
        simp only [List.mem_cons] at hp
        rcases hp with hp | hp
        · rw [hp] at hc
          rcases List.mem_cons.1 hc with hc | hc
          · rw [hc]; exact List.mem_cons_self _ _
          · exact List.mem_cons_of_mem _ (ih p0 (List.mem_cons_self _ _) c hc)
        · exact List.mem_cons_of_mem _ (ih p (List.mem_cons_of_mem _ hp) c hc)

theorem mem_nonEmptyComponents (l : List GoString) (p : GoString)
    (h : p ∈ nonEmptyComponents l) : p ∈ l := by
  rw [nonEmptyComponents_eq_filter] at h
  exact List.mem_of_mem_filter h

theorem mem_Join (l : List GoString) (c : Nat) (h : c ∈ Join l) :
    c = 32 ∨ ∃ p ∈ l, c ∈ p := by
  induction l with
  | nil => simp [Join] at h
  | cons a l ih =>
    cases l with
    | nil =>
      simp only [Join] at h
      exact Or.inr ⟨a, List.mem_cons_self _ _, h⟩
    | cons b rest =>
      simp only [Join, List.mem_append, List.mem_cons] at h
      rcases h with h | h | h
      · exact Or.inr ⟨a, List.mem_cons_self _ _, h⟩
      · exact Or.inl h
      · rcases ih h with h | ⟨p, hp, hc⟩
        · exact Or.inl h
        · exact Or.inr ⟨p, List.mem_cons_of_mem _ hp, hc⟩

/-- Every byte of the painted line comes from the given text before it, from the
buffer, or from the colour codes and the separating space. -/
theorem mem_parseInputString {W : Type} (ic : Console W) (pfx : GoString) (c : Nat)
    (h : c ∈ parseInputString ic pfx) :
    c ∈ pfx ∨ c ∈ ic.inputString ∨ c ∈ [27, 91, 57, 50, 49, 48, 109, 32] := by
  unfold parseInputString at h
  simp only [List.mem_append] at h
  rcases h with h | h
  · exact Or.inl h
  · right
    cases htok : nonEmptyComponents (Split ic.inputString) with
    | nil =>
      rw [htok] at h
      exact Or.inl h
    | cons first others =>
      rw [htok] at h
      have hsub : ∀ p ∈ first :: others, ∀ x ∈ p, x ∈ ic.inputString := by
        intro p hp x hx
        rw [← htok] at hp
        exact mem_of_mem_Split _ p (mem_nonEmptyComponents _ p hp) x hx
      have hcol : ∀ x, x ∈ green ∨ x ∈ red ∨ x ∈ reset →
          x ∈ [27, 91, 57, 50, 49, 48, 109, 32] := by
        have hg : ∀ y ∈ green, y ∈ [27, 91, 57, 50, 49, 48, 109, 32] := by decide
        have hr : ∀ y ∈ red, y ∈ [27, 91, 57, 50, 49, 48, 109, 32] := by decide
        have hz : ∀ y ∈ reset, y ∈ [27, 91, 57, 50, 49, 48, 109, 32] := by decide
        intro x hx
        rcases hx with hx | hx | hx
        · exact hg x hx
        · exact hr x hx
        · exact hz x hx
      have hpaint : ∀ (code : GoString) x, (∀ y ∈ code, y ∈ green ∨ y ∈ red ∨ y ∈ reset) →
          x ∈ code ++ first ++ reset ++
            (if (first :: others).length > 1 then [32] else []) ++ Join others →
          x ∈ ic.inputString ∨ x ∈ [27, 91, 57, 50, 49, 48, 109, 32] := by
        intro code x hcode hx
        simp only [List.mem_append] at hx
        rcases hx with (((hx | hx) | hx) | hx) | hx
        · exact Or.inr (hcol x (hcode x hx))
        · exact Or.inl (hsub first (List.mem_cons_self _ _) x hx)
        · exact Or.inr (hcol x (Or.inr (Or.inr hx)))
        · split at hx
          · rw [List.mem_singleton.1 hx]; simp
          · exact absurd hx (List.not_mem_nil x)
        · rcases mem_Join others x hx with hx | ⟨p, hp, hx⟩
          · rw [hx]; simp
          · exact Or.inl (hsub p (List.mem_cons_of_mem _ hp) x hx)
      simp only at h
      have hgr : ∀ y ∈ green, y ∈ green ∨ y ∈ red ∨ y ∈ reset := fun y hy => Or.inl hy
      have hrd : ∀ y ∈ red, y ∈ green ∨ y ∈ red ∨ y ∈ reset := fun y hy => Or.inr (Or.inl hy)
      split at h
      · simp only [List.mem_append, List.mem_singleton] at h
        rcases h with h | h
        · split at h
          · exact hpaint green c hgr h
          · exact hpaint red c hrd h
        · rw [h]; simp
      · split at h
        · exact hpaint green c hgr h
        · exact hpaint red c hrd h

theorem not_mem_parseInputString {W : Type} (ic : Console W) (pfx : GoString) (c : Nat)
    (hc : c ∉ [27, 91, 57, 50, 49, 48, 109, 32]) (hp : c ∉ pfx) (hb : c ∉ ic.inputString) :
    c ∉ parseInputString ic pfx := by
  intro h
  rcases mem_parseInputString ic pfx c h with h | h | h
  · exact hp h
  · exact hb h
  · exact hc h

/-- Where neither the prompt nor the buffer holds a percent sign, the redraw is the
carriage return, the prompt and the painted buffer. -/
theorem redraw_of_no_percent {W : Type} (ic : Console W) (hp : 37 ∉ ic.prompt)
    (hb : 37 ∉ ic.inputString) :
    redraw ic = [13] ++ ic.prompt ++ parseInputString ic [] := by
  unfold redraw
  rw [Sprintf0_of_not_mem, parseInputString_pfx]
  apply not_mem_parseInputString ic _ 37 (by decide) _ hb
  simp only [List.mem_append, List.mem_singleton, not_or]
  exact ⟨by decide, hp⟩

/-- Every key event makes the loop write what the editing branch prints and then one
redraw of the edited console; on Enter the writes of `handleCommand` follow. -/
theorem stepKey_stdout {W : Type} (s : Loop W) (ev : KeyEvent) :
    ∃ later, (stepKey s ev).env.stdout =
      s.env.stdout ++ (editKey s.env.ic ev).2 ++ [redraw (editKey s.env.ic ev).1] ++ later := by
  unfold stepKey
  rcases editKey s.env.ic ev with ⟨ic1, printed⟩
  simp only
  by_cases hc : ev.key = KeyCtrlC
  · exact ⟨[], by simp [hc]⟩
  · by_cases he : ev.key = KeyEnter
    · simp only [hc, he, if_false, if_true]
      have h := handleCommand_prependOut (s.env.stdout ++ printed ++ [redraw ic1])
        { ic := { ic1 with inputString := [] }, stdout := [], world := s.env.world,
          calls := s.env.calls } (TrimRight ic1.inputString [13, 10])
      simp only [Env.prependOut, List.append_nil] at h
      rw [h]
      generalize handleCommand _ (TrimRight ic1.inputString [13, 10]) = res
      rcases res with ⟨e3, o⟩
      cases o <;> exact ⟨e3.stdout, rfl⟩
    · exact ⟨[], by simp [hc, he]⟩

/-- C14, at the character event `%` typed into the empty buffer under the prompt `> `:
the redraw is printed as a format string, so the terminal receives the carriage return,
the prompt, the red code and `%!` + escape byte + `(MISSING)[0m`, and not the string
`parseInputString` returns (carriage return, prompt, red code, `%`, reset code). -/
theorem C14_redraw_reformats_percent :
    (inputThread none [KeyResult.ok { r := 37, key := 0 }] (newEnv ())).env.ic.inputString =
        ascii "%" ∧
      (inputThread none [KeyResult.ok { r := 37, key := 0 }] (newEnv ())).env.stdout =
        [ascii "> ", [13] ++ ascii "> " ++ red ++ ascii "%!" ++ [27] ++ ascii "(MISSING)[0m"] ∧
      parseInputString
          (inputThread none [KeyResult.ok { r := 37, key := 0 }] (newEnv ())).env.ic
          ([13] ++ ascii "> ") =
        [13] ++ ascii "> " ++ red ++ ascii "%" ++ reset ∧
      (inputThread none [KeyResult.ok { r := 37, key := 0 }] (newEnv ())).env.stdout ≠
        [ascii "> ", parseInputString
          (inputThread none [KeyResult.ok { r := 37, key := 0 }] (newEnv ())).env.ic
          ([13] ++ ascii "> ")] := by
  refine ⟨by rfl, by rfl, by decide, by decide⟩

/-! ## C15: where the clear escape is written -/

theorem doPrintf_cons_literal (n : Nat) (c : Nat) (t : GoString) (hc : c ≠ 37) :
    doPrintf (n + 1) (c :: t) = c :: doPrintf (n + 1) t := by
  simp only [doPrintf, List.span_eq_take_drop]
  have h1 : (c :: t).takeWhile (fun c => decide (c ≠ 37)) =
      c :: t.takeWhile (fun c => decide (c ≠ 37)) := by
    rw [List.takeWhile_cons]; simp [hc]
  have h2 : (c :: t).dropWhile (fun c => decide (c ≠ 37)) =
      t.dropWhile (fun c => decide (c ≠ 37)) := by
    rw [List.dropWhile_cons]; simp [hc]
  rw [h1, h2]
  cases t.dropWhile (fun c => decide (c ≠ 37)) with
  | nil => rfl
  | cons x u => rfl

/-- A byte that is not a percent sign is copied, and the rest is formatted as it would
be alone. -/
theorem Sprintf0_cons_literal (c : Nat) (t : GoString) (hc : c ≠ 37) :
    Sprintf0 (c :: t) = c :: Sprintf0 t := by
  unfold Sprintf0
  rw [List.length_cons, doPrintf_cons_literal _ c t hc]
  rw [doPrintf_fuel (t.length + 1 + 1) (t.length + 1) t (by omega) (by omega)]

/-- The string `Writef` prints begins with the carriage return and the clear escape. -/
theorem Sprintf0_writefLine {W : Type} (ic : Console W) (text : GoString) :
    Sprintf0 (writefLine ic text) =
      [13] ++ clearEscape ++
        Sprintf0 (TrimRight text [10] ++ [10] ++ [13] ++ ic.prompt ++ parseInputString ic []) := by
  have h : writefLine ic text =
      13 :: 27 :: 91 :: 75 ::
        (TrimRight text [10] ++ [10] ++ [13] ++ ic.prompt ++ parseInputString ic []) := by
    unfold writefLine
    rw [parseInputString_pfx]
    simp [ascii, List.append_assoc]
  rw [h, Sprintf0_cons_literal _ _ (by decide), Sprintf0_cons_literal _ _ (by decide),
    Sprintf0_cons_literal _ _ (by decide), Sprintf0_cons_literal _ _ (by decide)]
  rfl

/-- The method `handleCommand` writes nothing, or exactly one line through `Writef`. -/
theorem handleCommand_stdout_cases {W : Type} (e : Env W) (line : GoString) :
    (handleCommand e line).1.stdout = e.stdout ∨
      ∃ text, (handleCommand e line).1.stdout = e.stdout ++ [Sprintf0 (writefLine e.ic text)] := by
  unfold handleCommand
  simp only [handleCommandRange_eq_mapGet]
  cases mapGet e.ic.commands ((Split line).headD []) with
  | some a =>
    simp only [Option.map_some', runAction]
    rcases a (Split line).tail e.world with ⟨w, o⟩
    cases o with
    | ret u => exact Or.inl rfl
    | panic d => exact Or.inr ⟨_, rfl⟩
  | none =>
    simp only [Option.map_none']
    cases e.ic.unknownCommandHandler with
    | none => exact Or.inr ⟨_, rfl⟩
    | some handler =>
      simp only
      rcases handler line e.world with ⟨w, o⟩
      cases o with
      | panic d => exact Or.inl rfl
      | ret b =>
        cases b with
        | true => exact Or.inl rfl
        | false => exact Or.inr ⟨_, rfl⟩

/-- The strings one key event makes the loop write: what the editing branch prints,
the redraw of the edited console and, on Enter, what `handleCommand` writes. -/
theorem stepKey_stdout_exact {W : Type} (s : Loop W) (ev : KeyEvent) :
    (stepKey s ev).env.stdout =
      s.env.stdout ++ (editKey s.env.ic ev).2 ++ [redraw (editKey s.env.ic ev).1] ++
        (if ev.key = KeyEnter then
          (handleCommand { ic := { (editKey s.env.ic ev).1 with inputString := [] },
                           stdout := [], world := s.env.world, calls := s.env.calls }
            (TrimRight (editKey s.env.ic ev).1.inputString [13, 10])).1.stdout
        else []) := by
  unfold stepKey
  rcases editKey s.env.ic ev with ⟨ic1, printed⟩
  simp only
  by_cases hc : ev.key = KeyCtrlC
  · have he : ¬ ev.key = KeyEnter := by rw [hc]; decide
    rw [if_pos hc, if_neg he]
    simp
  · by_cases he : ev.key = KeyEnter
    · have hne : ¬ (KeyEnter = KeyCtrlC) := by decide
      simp only [hc, he, hne, if_false, if_true]
      have h := handleCommand_prependOut (s.env.stdout ++ printed ++ [redraw ic1])
        { ic := { ic1 with inputString := [] }, stdout := [], world := s.env.world,
          calls := s.env.calls } (TrimRight ic1.inputString [13, 10])
      simp only [Env.prependOut, List.append_nil] at h
      rw [h]
      generalize handleCommand _ (TrimRight ic1.inputString [13, 10]) = res
      rcases res with ⟨e3, o⟩
      cases o <;> rfl
    · simp [hc, he]

theorem parsenum_subset (s : GoString) (num : Nat) (isnum : Bool) :
    (parsenum s num isnum).2.2 ⊆ s := by
  induction s generalizing num isnum with
  | nil => simp [parsenum]
  | cons c cs ih =>
    simp only [parsenum]
    split
    · split
      · exact List.nil_subset _
      · exact (ih _ _).trans (List.subset_cons_self c cs)
    · exact List.Subset.refl _

theorem skipFlags_subset (s : GoString) : skipFlags s ⊆ s := by
  induction s with
  | nil => simp [skipFlags]
  | cons c cs ih =>
    simp only [skipFlags]
    split
    · exact ih.trans (List.subset_cons_self c cs)
    · exact List.Subset.refl _

theorem argNumber_subset (s : GoString) (good : Bool) : (argNumber s good).1 ⊆ s := by
  unfold argNumber
  split
  · exact List.drop_subset _ _
  · exact List.Subset.refl _

theorem parseWidth_subset (s : GoString) (a g : Bool) : (parseWidth s a g).2.1 ⊆ s := by
  unfold parseWidth
  split
  · exact List.subset_cons_self _ _
  · exact parsenum_subset _ _ _

theorem parseWidth_out (s : GoString) (a g : Bool) :
    (parseWidth s a g).1 = [] ∨ (parseWidth s a g).1 = ascii "%!(BADWIDTH)" := by
  unfold parseWidth
  split
  · exact Or.inr rfl
  · exact Or.inl rfl

theorem parsePrec_subset (s : GoString) (a g : Bool) : (parsePrec s a g).2.1 ⊆ s := by
  unfold parsePrec
  split
  · rename_i t
    have h1 := argNumber_subset t (if a then false else g)
    generalize argNumber t (if a then false else g) = r at h1 ⊢
    obtain ⟨t1, a1, g1⟩ := r
    simp only at h1 ⊢
    split
    · rename_i t2
      exact ((List.subset_cons_self 42 t2).trans h1).trans (List.subset_cons_self 46 t)
    · have h2 := parsenum_subset t1 0 false
      generalize parsenum t1 0 false = q at h2 ⊢
      obtain ⟨q1, q2, t2⟩ := q
      simp only at h2 ⊢
      exact (h2.trans h1).trans (List.subset_cons_self 46 t)
  · exact List.Subset.refl _

theorem parsePrec_out (s : GoString) (a g : Bool) :
    (parsePrec s a g).1 = [] ∨ (parsePrec s a g).1 = ascii "%!(BADPREC)" := by
  unfold parsePrec
  split
  · rename_i t
    generalize argNumber t (if a then false else g) = r
    obtain ⟨t1, a1, g1⟩ := r
    simp only
    split
    · exact Or.inr rfl
    · exact Or.inl rfl
  · exact Or.inl rfl

theorem mem_encodeRune_75 (r : Int) (h : 75 ∈ encodeRune r) : r = 75 := by
  unfold encodeRune at h
  simp only at h
  split at h
  · simp [runeErrorBytes] at h
  · split at h
    · simp only [List.mem_singleton] at h
      omega
    · split at h
      · simp only [List.mem_cons, List.mem_singleton, List.not_mem_nil, or_false] at h
        omega
      · split at h
        · simp [runeErrorBytes] at h
        · split at h
          · simp only [List.mem_cons, List.mem_singleton, List.not_mem_nil, or_false] at h
            omega
          · simp only [List.mem_cons, List.mem_singleton, List.not_mem_nil, or_false] at h
            omega

theorem decodeRune_ne_75 (c : Nat) (t : GoString) (hc : c ≥ 128) :
    (decodeRune (c :: t)).1 ≠ 75 := by
  unfold decodeRune
  simp only [isCont]
  have h0 : ¬ c < 0x80 := by omega
  rw [if_neg h0]
  repeat' split
  all_goals first
    | decide
    | (dsimp only; omega)

theorem doVerb_no_K (s : GoString) (h : 75 ∉ s) :
    75 ∉ (doVerb s).1 ∧ (doVerb s).2 ⊆ s := by
  have h1 := skipFlags_subset s
  have h2 := argNumber_subset (skipFlags s) true
  unfold doVerb
  generalize argNumber (skipFlags s) true = r2 at h2 ⊢
  obtain ⟨s2, a2, g2⟩ := r2
  have h3 := parseWidth_subset s2 a2 g2
  have o3 := parseWidth_out s2 a2 g2
  simp only at h2 ⊢
  generalize parseWidth s2 a2 g2 = r3 at h3 o3 ⊢
  obtain ⟨o1, s3, a3, g3⟩ := r3
  have h4 := parsePrec_subset s3 a3 g3
  have o4 := parsePrec_out s3 a3 g3
  simp only at h3 o3 ⊢
  generalize parsePrec s3 a3 g3 = r4 at h4 o4 ⊢
  obtain ⟨o2, s4, a4, g4⟩ := r4
  simp only at h4 o4 ⊢
  have h5 : (if a4 = true then (s4, a4, g4) else argNumber s4 g4).1 ⊆ s4 := by
    split
    · exact List.Subset.refl _
    · exact argNumber_subset s4 g4
  generalize (if a4 = true then (s4, a4, g4) else argNumber s4 g4) = r5 at h5 ⊢
  obtain ⟨s5, a5, g5⟩ := r5
  simp only at h5 ⊢
  have hs5 : s5 ⊆ s := (((h5.trans h4).trans h3).trans h2).trans h1
  have ho1 : 75 ∉ o1 := by
    rcases o3 with e | e <;> rw [e] <;> decide
  have ho2 : 75 ∉ o2 := by
    rcases o4 with e | e <;> rw [e] <;> decide
  cases s5 with
  | nil =>
    refine ⟨?_, List.nil_subset _⟩
    simp only [List.mem_append, not_or]
    exact ⟨⟨ho1, ho2⟩, by decide⟩
  | cons c t =>
    simp only
    have hc75 : c ≠ 75 := fun e => h (hs5 (e ▸ List.mem_cons_self c t))
    have hv : 75 ∉ encodeRune (if c ≥ 128 then decodeRune (c :: t) else ((c : Int), 1)).1 := by
      intro hm
      have h75 := mem_encodeRune_75 _ hm
      split at h75
      · rename_i hge
        exact decodeRune_ne_75 c t hge h75
      · simp only at h75
        omega
    have hdrop : ∀ n, (c :: t).drop n ⊆ s := fun n => (List.drop_subset n _).trans hs5
    generalize (if c ≥ 128 then decodeRune (c :: t) else ((c : Int), 1)) = r6 at hv ⊢
    obtain ⟨verb, size⟩ := r6
    simp only at hv ⊢
    have hbang : 75 ∉ ascii "%!" := by decide
    have hmiss : 75 ∉ ascii "(MISSING)" := by decide
    have hbad : 75 ∉ ascii "(BADINDEX)" := by decide
    split
    · refine ⟨?_, hdrop _⟩
      simp only [List.mem_append, not_or]
      exact ⟨⟨ho1, ho2⟩, by decide⟩
    · split
      · refine ⟨?_, hdrop _⟩
        simp only [List.mem_append, not_or]
        exact ⟨⟨⟨⟨ho1, ho2⟩, hbang⟩, hv⟩, hmiss⟩
      · refine ⟨?_, hdrop _⟩
        simp only [List.mem_append, not_or]
        exact ⟨⟨⟨⟨ho1, ho2⟩, hbang⟩, hv⟩, hbad⟩

theorem doPrintf_no_K (n : Nat) (s : GoString) (h : 75 ∉ s) : 75 ∉ doPrintf n s := by
  induction n generalizing s with
  | zero => simp [doPrintf]
  | succ n ih =>
    simp only [doPrintf, List.span_eq_take_drop]
    have hlit : 75 ∉ s.takeWhile (fun c => decide (c ≠ 37)) :=
      fun hm => h ((List.takeWhile_sublist _).subset hm)
    have hrest : s.dropWhile (fun c => decide (c ≠ 37)) ⊆ s :=
      (List.dropWhile_sublist _).subset
    cases hd : s.dropWhile (fun c => decide (c ≠ 37)) with
    | nil => exact hlit
    | cons x t =>
      simp only
      rw [hd] at hrest
      have ht : 75 ∉ t := fun hm => h (hrest (List.mem_cons_of_mem _ hm))
      have hv := doVerb_no_K t ht
      generalize doVerb t = r at hv ⊢
      obtain ⟨o, rest⟩ := r
      simp only at hv ⊢
      simp only [List.mem_append, not_or]
      exact ⟨⟨hlit, hv.1⟩, ih rest (fun hm => ht (hv.2 hm))⟩

/-- Formatting with no operands never produces the letter `K` from a format without
one, so it never produces a clear escape from such a format. -/
theorem Sprintf0_no_K (s : GoString) (h : 75 ∉ s) : 75 ∉ Sprintf0 s :=
  doPrintf_no_K _ s h

/-- C15 fails at the character event `a` typed into the empty buffer under the prompt
`> `: the loop writes one string for the event, the redraw `\r> ` + red code + `a` +
reset code, and the clear escape does not occur in it. -/
theorem C15_redraw_without_clear_escape :
    (inputThread none [KeyResult.ok keyA] (newEnv ())).env.stdout =
        [ascii "> ", [13] ++ ascii "> " ++ red ++ ascii "a" ++ reset] ∧
      ¬ (clearEscape <:+: [13] ++ ascii "> " ++ red ++ ascii "a" ++ reset) := by
  refine ⟨by rfl, by decide⟩

/-- C15 as amended: for every prompt, buffer and key event, the strings the loop
writes for the event are, in this order, what the editing branch prints, the redraw,
and on Enter what `handleCommand` writes.  The redraw is the carriage return followed
by the prompt and the painted buffer as `fmt.Printf` prints them; it has no clear
escape of its own: when prompt and buffer hold no letter `K` it holds none, and when
they hold no percent sign either it is exactly carriage return, prompt, painted buffer.
Before the redraw the loop prints the erase string `\b\033[K` exactly when the key is
Backspace or Backspace2 and the buffer is not empty, the cursor-forward escape `\033[C`
when the key is an arrow, and nothing otherwise.  What `handleCommand` writes is nothing
or one `Writef` line, and a `Writef` line does begin with `\r\033[K`. -/
theorem C15_redraw_text :
    (∀ (W : Type) (s : Loop W) (ev : KeyEvent),
      (stepKey s ev).env.stdout =
        s.env.stdout ++ (editKey s.env.ic ev).2 ++ [redraw (editKey s.env.ic ev).1] ++
          (if ev.key = KeyEnter then
            (handleCommand { ic := { (editKey s.env.ic ev).1 with inputString := [] },
                             stdout := [], world := s.env.world, calls := s.env.calls }
              (TrimRight (editKey s.env.ic ev).1.inputString [13, 10])).1.stdout
          else [])) ∧
    (∀ (W : Type) (ic : Console W),
      redraw ic = Sprintf0 ([13] ++ ic.prompt ++ parseInputString ic []) ∧
      redraw ic = [13] ++ Sprintf0 (ic.prompt ++ parseInputString ic [])) ∧
    (∀ (W : Type) (ic : Console W), 75 ∉ ic.prompt → 75 ∉ ic.inputString →
      75 ∉ redraw ic ∧ ¬ (clearEscape <:+: redraw ic)) ∧
    (∀ (W : Type) (ic : Console W), 37 ∉ ic.prompt → 37 ∉ ic.inputString →
      75 ∉ ic.prompt → 75 ∉ ic.inputString →
      redraw ic = [13] ++ ic.prompt ++ parseInputString ic [] ∧ 75 ∉ redraw ic ∧
      ¬ (clearEscape <:+: redraw ic)) ∧
    (∀ (W : Type) (ic : Console W) (ev : KeyEvent),
      ((ev.key = KeyBackspace ∨ ev.key = KeyBackspace2) → ic.inputString ≠ [] →
        (editKey ic ev).2 = [eraseString]) ∧
      ((ev.key = KeyBackspace ∨ ev.key = KeyBackspace2) → ic.inputString = [] →
        (editKey ic ev).2 = []) ∧
      ((ev.key = KeyArrowUp ∨ ev.key = KeyArrowDown ∨ ev.key = KeyArrowLeft ∨
          ev.key = KeyArrowRight) →
        (editKey ic ev).2 = [[27] ++ ascii "[C"]) ∧
      (¬ (ev.key = KeyBackspace ∨ ev.key = KeyBackspace2) →
        ¬ (ev.key = KeyArrowUp ∨ ev.key = KeyArrowDown ∨ ev.key = KeyArrowLeft ∨
          ev.key = KeyArrowRight) →
        (editKey ic ev).2 = []) ∧
      ((editKey ic ev).2 = [eraseString] ↔
        ((ev.key = KeyBackspace ∨ ev.key = KeyBackspace2) ∧ ic.inputString ≠ []))) ∧
    (∀ (W : Type) (e : Env W) (line : GoString),
      (handleCommand e line).1.stdout = e.stdout ∨
        ∃ text, (handleCommand e line).1.stdout =
          e.stdout ++ [Sprintf0 (writefLine e.ic text)]) ∧
    (∀ (W : Type) (e : Env W) (text : GoString),
      (Writef e text).stdout = e.stdout ++ [Sprintf0 (writefLine e.ic text)] ∧
      Sprintf0 (writefLine e.ic text) =
        [13] ++ clearEscape ++
          Sprintf0 (TrimRight text [10] ++ [10] ++ [13] ++ e.ic.prompt ++
            parseInputString e.ic [])) := by
  have hK : ∀ (W : Type) (ic : Console W), 75 ∉ ic.prompt → 75 ∉ ic.inputString →
      75 ∉ redraw ic ∧ ¬ (clearEscape <:+: redraw ic) := by
    intro W ic hkp hkb
    have hk : 75 ∉ redraw ic := by
      unfold redraw
      apply Sprintf0_no_K
      apply not_mem_parseInputString ic _ 75 (by decide) _ hkb
      simp only [List.mem_append, List.mem_singleton, not_or]
      exact ⟨by decide, hkp⟩
    exact ⟨hk, fun hin => hk (hin.subset (by decide))⟩
  refine ⟨fun W s ev => stepKey_stdout_exact s ev, ?_, hK, ?_, ?_,
    fun W e line => handleCommand_stdout_cases e line,
    fun W e text => ⟨rfl, Sprintf0_writefLine e.ic text⟩⟩
  · intro W ic
    have h1 : redraw ic = Sprintf0 ([13] ++ ic.prompt ++ parseInputString ic []) := by
      unfold redraw
      rw [parseInputString_pfx]
    refine ⟨h1, ?_⟩
    rw [h1, List.append_assoc, List.singleton_append, Sprintf0_cons_literal _ _ (by decide)]
    rfl
  · intro W ic hp hb hkp hkb
    exact ⟨redraw_of_no_percent ic hp hb, (hK W ic hkp hkb).1, (hK W ic hkp hkb).2⟩
  · intro W ic ev
    have harrow : (ev.key = KeyArrowUp ∨ ev.key = KeyArrowDown ∨ ev.key = KeyArrowLeft ∨
        ev.key = KeyArrowRight) → ¬ (ev.key = KeyBackspace ∨ ev.key = KeyBackspace2) := by
      intro ha hb
      rcases ha with ha | ha | ha | ha <;> rw [ha] at hb <;> revert hb <;> decide
    refine ⟨?_, ?_, ?_, ?_, ?_⟩
    · intro hbs hne
      simp [editKey, hbs, hne, eraseString]
    · intro hbs hne
      simp [editKey, hbs, hne]
    · intro ha
      unfold editKey
      rw [if_neg (harrow ha), if_pos ha]
    · intro hbs ha
      unfold editKey
      rw [if_neg hbs, if_neg ha]
      split
      · rfl
      · split <;> rfl
    · unfold editKey
      by_cases hbs : ev.key = KeyBackspace ∨ ev.key = KeyBackspace2
      · by_cases hne : ic.inputString = []
        · simp [hbs, hne]
        · simp [hbs, hne, eraseString]
      · simp only [hbs, if_false, false_and, iff_false]
        have h1 : ([[27] ++ ascii "[C"] : List GoString) ≠ [eraseString] := by decide
        have h2 : ([] : List GoString) ≠ [eraseString] := by decide
        split
        · exact h1
        · split
          · exact h2
          · split
            · exact h2
            · exact h2

theorem C15_redraw_text_witness :
    75 ∉ percentEnv.ic.prompt ∧ 75 ∉ percentEnv.ic.inputString ∧
      ¬ (clearEscape <:+: redraw percentEnv.ic) ∧
      37 ∉ sampleLoop.env.ic.prompt ∧ 37 ∉ sampleLoop.env.ic.inputString ∧
      75 ∉ sampleLoop.env.ic.prompt ∧ 75 ∉ sampleLoop.env.ic.inputString ∧
      redraw sampleLoop.env.ic = [13] ++ ascii "> " ++ green ++ ascii "fail" ++ reset ∧
      (editKey sampleLoop.env.ic keyBackspace).2 = [eraseString] ∧
      (editKey emptyLoop.env.ic keyBackspace).2 = [] ∧
      (editKey sampleLoop.env.ic { r := 0, key := KeyArrowLeft }).2 = [[27] ++ ascii "[C"] ∧
      (editKey sampleLoop.env.ic keyA).2 = [] ∧
      (stepKey sampleLoop keyBackspace).env.stdout =
        [eraseString, [13] ++ ascii "> " ++ red ++ ascii "fai" ++ reset] := by
  have hk := C15_redraw_text.2.2.1 _ percentEnv.ic (by decide) (by decide)
  have h := C15_redraw_text.2.2.2.1 _ sampleLoop.env.ic (by decide) (by decide) (by decide)
    (by decide)
  have hb := C15_redraw_text.2.2.2.2.1 _ sampleLoop.env.ic keyBackspace
  have he := C15_redraw_text.2.2.2.2.1 _ emptyLoop.env.ic keyBackspace
  have ha := C15_redraw_text.2.2.2.2.1 _ sampleLoop.env.ic { r := 0, key := KeyArrowLeft }
  have hn := C15_redraw_text.2.2.2.2.1 _ sampleLoop.env.ic keyA
  have hs := C15_redraw_text.1 _ sampleLoop keyBackspace
  refine ⟨by decide, by decide, hk.2, by decide, by decide, by decide, by decide, ?_,
    hb.1 (Or.inl rfl) (by decide), he.2.1 (Or.inl rfl) rfl,
    ha.2.2.1 (Or.inr (Or.inr (Or.inl rfl))), hn.2.2.2.1 (by decide) (by decide), ?_⟩
  · rw [h.1]
    decide
  · rw [hs]
    rfl

/-! ## C16: the buffer after Ctrl-C -/

/-- C16 fails at the events `a`, Ctrl-C from the empty buffer: the session is
terminated and the buffer still holds `a`; a `Writef("hi")` made afterwards repaints the
prompt followed by the red-painted `a`. -/
theorem C16_buffer_kept_after_ctrlC :
    (inputThread none [KeyResult.ok keyA, KeyResult.ok ctrlCEvent]
        (newEnv ())).status = Status.terminated ∧
      (inputThread none [KeyResult.ok keyA, KeyResult.ok ctrlCEvent]
        (newEnv ())).env.ic.inputString = ascii "a" ∧
      (inputThread none [KeyResult.ok keyA, KeyResult.ok ctrlCEvent]
        (newEnv ())).env.ic.inputString ≠ [] ∧
      Sprintf0 (writefLine (inputThread none [KeyResult.ok keyA, KeyResult.ok ctrlCEvent]
        (newEnv ())).env.ic (ascii "hi")) =
        [13] ++ clearEscape ++ ascii "hi" ++ [10, 13] ++ ascii "> " ++ red ++ ascii "a" ++
          reset := by
  refine ⟨by rfl, by rfl, by decide, by rfl⟩

theorem stepKey_ctrlC {W : Type} (s : Loop W) :
    stepKey s ctrlCEvent =
      { env := { s.env with stdout := s.env.stdout ++ [redraw s.env.ic] },
        driver := s.driver ++ [DriverCall.close],
        status := Status.terminated } := by
  simp [stepKey, editKey, ctrlCEvent, KeyEnter, KeyBackspace, KeyBackspace2, KeyArrowUp,
    KeyArrowDown, KeyArrowLeft, KeyArrowRight, KeySpace, KeyCtrlC]

/-- C16 as amended: a Ctrl-C event ends the session and leaves the console as it is;
in every state reached afterwards the buffer is the one that was there when the
Ctrl-C arrived (empty only if it was empty then), and a `Writef` made after the session
ended repaints the prompt followed by the painting of that buffer. -/
theorem C16_ctrlC_keeps_buffer :
    ∀ (W : Type) (s : Loop W) (post : List KeyResult),
      s.status = Status.listening →
      (inputLoop (KeyResult.ok ctrlCEvent :: post) s).status = Status.terminated ∧
      (inputLoop (KeyResult.ok ctrlCEvent :: post) s).env.ic = s.env.ic ∧
      (inputLoop (KeyResult.ok ctrlCEvent :: post) s).env.ic.inputString =
        s.env.ic.inputString ∧
      ∀ text : GoString,
        (Writef (inputLoop (KeyResult.ok ctrlCEvent :: post) s).env text).stdout =
          (inputLoop (KeyResult.ok ctrlCEvent :: post) s).env.stdout ++
            [Sprintf0 ([13] ++ clearEscape ++ TrimRight text [10] ++ [10] ++ [13] ++
              s.env.ic.prompt ++ parseInputString s.env.ic [])] := by
  intro W s post hs
  obtain ⟨env, driver, status⟩ := s
  simp only at hs
  subst hs
  have h : inputLoop (KeyResult.ok ctrlCEvent :: post) ⟨env, driver, Status.listening⟩ =
      { env := { env with stdout := env.stdout ++ [redraw env.ic] },
        driver := driver ++ [DriverCall.getKey] ++ [DriverCall.close],
        status := Status.terminated } := by
    simp only [inputLoop]
    rw [stepKey_ctrlC, inputLoop_of_not_listening]
    simp
  rw [h]
  refine ⟨rfl, rfl, rfl, ?_⟩
  intro text
  simp only [Writef, writefLine]
  rw [parseInputString_pfx]
  simp [clearEscape, List.append_assoc]

theorem C16_ctrlC_keeps_buffer_witness :
    sampleLoop.status = Status.listening ∧
      (inputLoop [KeyResult.ok ctrlCEvent, KeyResult.ok keyA] sampleLoop).env.ic.inputString =
        ascii "fail" ∧
      (inputLoop [KeyResult.ok ctrlCEvent, KeyResult.ok keyA] sampleLoop).status =
        Status.terminated :=
  ⟨rfl, (C16_ctrlC_keeps_buffer _ sampleLoop [KeyResult.ok keyA] rfl).2.2.1,
    (C16_ctrlC_keeps_buffer _ sampleLoop [KeyResult.ok keyA] rfl).1⟩

/-! ## C17: Backspace on the empty buffer -/

theorem Sprintf0_cr (t : GoString) : ∃ u, Sprintf0 (13 :: t) = 13 :: u := by
  unfold Sprintf0
  simp only [List.length_cons, doPrintf, List.span_eq_take_drop]
  have h1 : (13 :: t).takeWhile (fun c => decide (c ≠ 37)) =
      13 :: t.takeWhile (fun c => decide (c ≠ 37)) := by
    rw [List.takeWhile_cons]; simp
  have h2 : (13 :: t).dropWhile (fun c => decide (c ≠ 37)) =
      t.dropWhile (fun c => decide (c ≠ 37)) := by
    rw [List.dropWhile_cons]; simp
  rw [h1, h2]
  cases t.dropWhile (fun c => decide (c ≠ 37)) with
  | nil => exact ⟨_, rfl⟩
  | cons c u => exact ⟨_, rfl⟩

/-- C17: a Backspace or Backspace2 event on the empty buffer leaves the console as it
is (buffer empty, of length zero, prompt, registry and unknown-command handler
unchanged); the loop writes exactly one string, the redraw of the carriage return and
the prompt, which is not the erase string `\b\033[K`, and keeps listening. -/
theorem C17_backspace_on_empty_buffer :
    ∀ (W : Type) (s : Loop W) (ev : KeyEvent),
      (ev.key = KeyBackspace ∨ ev.key = KeyBackspace2) → s.env.ic.inputString = [] →
      (stepKey s ev).env.ic = s.env.ic ∧
      (stepKey s ev).env.ic.inputString = [] ∧
      (stepKey s ev).env.ic.inputString.length = 0 ∧
      (stepKey s ev).env.stdout = s.env.stdout ++ [redraw s.env.ic] ∧
      redraw s.env.ic = Sprintf0 ([13] ++ s.env.ic.prompt) ∧
      eraseString ∉ [redraw s.env.ic] ∧
      (editKey s.env.ic ev).2 = [] ∧
      (stepKey s ev).status = Status.listening := by
  intro W s ev hk hb
  have hkeys : ev.key ≠ KeyCtrlC ∧ ev.key ≠ KeyEnter := by
    rcases hk with h | h <;> rw [h] <;> decide
  have hstep : stepKey s ev =
      { env := { s.env with stdout := s.env.stdout ++ [redraw s.env.ic] },
        driver := s.driver, status := Status.listening } := by
    simp [stepKey, editKey, hk, hb, hkeys.1, hkeys.2]
  have hred : redraw s.env.ic = Sprintf0 ([13] ++ s.env.ic.prompt) := by
    unfold redraw parseInputString
    simp [hb, Split, nonEmptyComponents]
  rw [hstep]
  refine ⟨rfl, hb, by rw [hb]; rfl, rfl, hred, ?_, by simp [editKey, hk, hb], rfl⟩
  intro hmem
  rw [List.mem_singleton, hred] at hmem
  obtain ⟨u, hu⟩ := Sprintf0_cr s.env.ic.prompt
  rw [List.singleton_append, hu] at hmem
  have := congrArg List.head? hmem
  simp [eraseString] at this

theorem C17_backspace_on_empty_buffer_witness :
    (keyBackspace.key = KeyBackspace ∨ keyBackspace.key = KeyBackspace2) ∧
      emptyLoop.env.ic.inputString = [] ∧
      (stepKey emptyLoop keyBackspace).env.ic.inputString = [] ∧
      (stepKey emptyLoop keyBackspace).env.stdout = [[13] ++ ascii "> "] := by
  have h := C17_backspace_on_empty_buffer _ emptyLoop keyBackspace (Or.inl rfl) rfl
  refine ⟨Or.inl rfl, rfl, h.2.1, ?_⟩
  rw [h.2.2.2.1]
  decide

/-! ## C18: `keyboard.Close` is called once -/

theorem stepKey_driver {W : Type} (s : Loop W) (ev : KeyEvent) :
    ((stepKey s ev).status = Status.listening ∧ (stepKey s ev).driver = s.driver) ∨
      ((stepKey s ev).status ≠ Status.listening ∧
        (stepKey s ev).driver = s.driver ++ [DriverCall.close]) := by
  unfold stepKey
  rcases editKey s.env.ic ev with ⟨ic1, printed⟩
  simp only
  by_cases hc : ev.key = KeyCtrlC
  · right
    simp [hc]
  · by_cases he : ev.key = KeyEnter
    · have hne : ¬ (KeyEnter = KeyCtrlC) := by decide
      simp only [hc, he, hne, if_false, if_true]
      generalize handleCommand _ (TrimRight ic1.inputString [13, 10]) = res
      rcases res with ⟨e3, o⟩
      cases o with
      | ret u => exact Or.inl ⟨rfl, rfl⟩
      | panic d => exact Or.inr ⟨by simp, rfl⟩
    · left
      simp [hc, he]

theorem inputLoop_driverOk {W : Type} (ks : List KeyResult) (s : Loop W) (h : DriverOk s) :
    DriverOk (inputLoop ks s) := by
  induction ks generalizing s with
  | nil => exact h
  | cons k ks ih =>
    obtain ⟨env, driver, status⟩ := s
    cases status with
    | terminated => exact h
    | panicked d => exact h
    | listening =>
      have hno : DriverCall.close ∉ driver := h.1 rfl
      have hno2 : DriverCall.close ∉ driver ++ [DriverCall.getKey] := by
        simp only [List.mem_append, List.mem_singleton, not_or]
        exact ⟨hno, by decide⟩
      cases k with
      | err e =>
        simp only [inputLoop]
        refine ⟨fun hl => by simp at hl, fun _ => ⟨driver ++ [DriverCall.getKey], ?_, hno2⟩⟩
        simp
      | ok ev =>
        simp only [inputLoop]
        apply ih
        rcases stepKey_driver
          ({ env := env, driver := driver ++ [DriverCall.getKey], status := Status.listening } :
            Loop W) ev with ⟨hst, hdr⟩ | ⟨hst, hdr⟩
        · refine ⟨fun _ => ?_, fun hn => absurd hst hn⟩
          rw [hdr]
          exact hno2
        · refine ⟨fun hl => absurd hl hst, fun _ => ⟨driver ++ [DriverCall.getKey], ?_, hno2⟩⟩
          rw [hdr]

theorem inputThread_driverOk {W : Type} (openErr : Option GoString) (keys : List KeyResult)
    (e : Env W) : DriverOk (inputThread openErr keys e) := by
  cases openErr with
  | some err =>
    refine ⟨fun hl => by simp [inputThread] at hl, fun _ => ⟨[DriverCall.open], rfl, by decide⟩⟩
  | none =>
    apply inputLoop_driverOk
    refine ⟨fun _ => ?_, fun hn => absurd rfl hn⟩
    show DriverCall.close ∉ [DriverCall.open]
    decide

/-- C18: in the trace of driver calls of every finished run of `inputThread` (ended by
Ctrl-C, by a failing `Open`, by a failing `GetKey` or by a panic that leaves the
unknown-command handler) `Close` occurs exactly once and is the last call; while the
loop is still listening `Close` has not been called.  When `Open` fails the trace is
`Open`, `Close`. -/
theorem C18_close_called_once :
    (∀ (W : Type) (openErr : Option GoString) (keys : List KeyResult) (e : Env W),
      (inputThread openErr keys e).status ≠ Status.listening →
      (inputThread openErr keys e).driver.count DriverCall.close = 1 ∧
      (inputThread openErr keys e).driver.getLast? = some DriverCall.close) ∧
    (∀ (W : Type) (openErr : Option GoString) (keys : List KeyResult) (e : Env W),
      (inputThread openErr keys e).status = Status.listening →
      DriverCall.close ∉ (inputThread openErr keys e).driver) ∧
    (∀ (W : Type) (err : GoString) (keys : List KeyResult) (e : Env W),
      (inputThread (some err) keys e).driver = [DriverCall.open, DriverCall.close] ∧
      (inputThread (some err) keys e).status = Status.panicked err) := by
  refine ⟨?_, ?_, fun W err keys e => ⟨rfl, rfl⟩⟩
  · intro W openErr keys e hfin
    obtain ⟨d, hd, hnot⟩ := (inputThread_driverOk openErr keys e).2 hfin
    rw [hd]
    refine ⟨?_, List.getLast?_concat d⟩
    rw [List.count_append, List.count_eq_zero.2 hnot]
    rfl
  · intro W openErr keys e hl
    exact (inputThread_driverOk openErr keys e).1 hl

theorem C18_close_called_once_witness :
    (inputThread none [KeyResult.ok keyA, KeyResult.ok enterEvent, KeyResult.ok keyA]
        panicEnv).status = Status.panicked (ascii "bad") ∧
      (inputThread none [KeyResult.ok keyA, KeyResult.ok enterEvent, KeyResult.ok keyA]
        panicEnv).driver =
        [DriverCall.open, DriverCall.getKey, DriverCall.getKey, DriverCall.close] ∧
      (inputThread none [KeyResult.ok keyA, KeyResult.ok enterEvent, KeyResult.ok keyA]
        panicEnv).driver.count DriverCall.close = 1 ∧
      (inputThread none [KeyResult.ok keyA, KeyResult.ok ctrlCEvent] panicEnv).driver.getLast? =
        some DriverCall.close ∧
      (inputThread none [KeyResult.ok keyA, KeyResult.err (ascii "eof")]
        panicEnv).driver.getLast? = some DriverCall.close :=
  ⟨rfl, rfl,
    (C18_close_called_once.1 _ none
      [KeyResult.ok keyA, KeyResult.ok enterEvent, KeyResult.ok keyA] panicEnv
      (by decide)).1,
    (C18_close_called_once.1 _ none [KeyResult.ok keyA, KeyResult.ok ctrlCEvent] panicEnv
      (by decide)).2,
    (C18_close_called_once.1 _ none [KeyResult.ok keyA, KeyResult.err (ascii "eof")] panicEnv
      (by decide)).2⟩

/-! ## C19: highlighting and dispatch -/

theorem TrimRight_of_no_crlf (b : GoString) (h13 : 13 ∉ b) (h10 : 10 ∉ b) :
    TrimRight b [13, 10] = b := by
  rw [TrimRight_eq_rdropWhile, List.rdropWhile_eq_self_iff]
  intro hne
  have hmem := List.getLast_mem hne
  intro hp
  simp only [List.mem_cons, List.mem_singleton, List.not_mem_nil, or_false,
    decide_eq_true_eq] at hp
  rcases hp with hp | hp
  · exact h13 (hp ▸ hmem)
  · exact h10 (hp ▸ hmem)

theorem Split_cons_of_ne (c : Nat) (cs : GoString) (hc : c ≠ 32) :
    ∃ p ps, Split cs = p :: ps ∧ Split (c :: cs) = (c :: p) :: ps := by
  cases hsp : Split cs with
  | nil => exact absurd hsp (Split_ne_nil cs)
  | cons p ps => exact ⟨p, ps, rfl, by simp [Split, hc, hsp]⟩

theorem Split_head_eq_takeWhile (b : GoString) :
    (Split b).headD [] = b.takeWhile (fun c => decide (c ≠ 32)) := by
  induction b with
  | nil => rfl
  | cons c cs ih =>
    by_cases hc : c = 32
    · simp [Split, hc]
    · obtain ⟨p, ps, hsp, hsp2⟩ := Split_cons_of_ne c cs hc
      rw [hsp2, List.takeWhile_cons]
      rw [hsp] at ih
      simp only [List.headD_cons] at ih ⊢
      simp [hc, ih]

theorem first_token_of_no_leading_space (b : GoString) (hne : b ≠ [])
    (hh : b.head? ≠ some 32) :
    ∃ ts, nonEmptyComponents (Split b) = b.takeWhile (fun c => decide (c ≠ 32)) :: ts := by
  cases b with
  | nil => exact absurd rfl hne
  | cons c cs =>
    have hc : c ≠ 32 := fun h => hh (by rw [h]; rfl)
    obtain ⟨p, ps, hsp, hsp2⟩ := Split_cons_of_ne c cs hc
    have hhead := Split_head_eq_takeWhile (c :: cs)
    rw [hsp2] at hhead ⊢
    simp only [List.headD_cons] at hhead
    refine ⟨nonEmptyComponents ps, ?_⟩
    rw [← hhead]
    simp [nonEmptyComponents]

theorem mapGet_of_mem_keys {V : Type} (m : List (GoString × V)) (k : GoString)
    (h : k ∈ m.map Prod.fst) : ∃ v, mapGet m k = some v := by
  induction m with
  | nil => simp at h
  | cons entry m ih =>
    obtain ⟨k0, v0⟩ := entry
    simp only [mapGet]
    by_cases hk : k0 = k
    · exact ⟨v0, by simp [hk]⟩
    · simp only [hk, if_false]
      apply ih
      simp only [List.map_cons, List.mem_cons] at h
      rcases h with h | h
      · exact absurd h.symm hk
      · exact h

theorem runAction_calls {W : Type} (e : Env W) (name : GoString) (args : List GoString)
    (action : Action W) :
    (runAction e name args action).calls = e.calls ++ [Call.command name args] := by
  unfold runAction
  rcases action args e.world with ⟨w, o⟩
  cases o <;> rfl

theorem handleCommand_calls_registered {W : Type} (e : Env W) (line : GoString)
    (h : (Split line).headD [] ∈ e.ic.commands.map Prod.fst) :
    (handleCommand e line).1.calls =
      e.calls ++ [Call.command ((Split line).headD []) (Split line).tail] := by
  obtain ⟨a, ha⟩ := mapGet_of_mem_keys _ _ h
  unfold handleCommand
  simp only [handleCommandRange_eq_mapGet, ha, Option.map_some']
  exact runAction_calls e _ _ a

theorem handleCommand_calls_unknown {W : Type} (e : Env W) (line : GoString)
    (h : (Split line).headD [] ∉ e.ic.commands.map Prod.fst) :
    (handleCommand e line).1.calls = e.calls ∨
      (handleCommand e line).1.calls = e.calls ++ [Call.unknown line] := by
  rw [handleCommand_unknown e line h]
  cases e.ic.unknownCommandHandler with
  | none => exact Or.inl rfl
  | some handler =>
    simp only
    rcases handler line e.world with ⟨w, o⟩
    cases o with
    | panic d => exact Or.inr rfl
    | ret b => cases b <;> exact Or.inr rfl

theorem stepKey_enter_calls {W : Type} (s : Loop W) :
    (stepKey s enterEvent).env.calls =
      (handleCommand { ic := { s.env.ic with inputString := [] },
                       stdout := s.env.stdout ++ [redraw s.env.ic],
                       world := s.env.world, calls := s.env.calls }
        (TrimRight s.env.ic.inputString [13, 10])).1.calls := by
  rw [stepKey_enter]
  generalize handleCommand _ (TrimRight s.env.ic.inputString [13, 10]) = res
  rcases res with ⟨e3, o⟩
  cases o <;> rfl

theorem green_ne_red (x y : GoString) : green ++ x ≠ red ++ y := by
  intro h
  have h2 := congrArg (fun l => l.get? 3) h
  simp [green, red, ascii] at h2

/-- C19: for a non-empty buffer that does not start with a space and holds no `\r` or
`\n`, `parseInputString` paints the first token (the buffer up to its first space)
green exactly when an Enter on that buffer makes `handleCommand` call the action
registered under that token; otherwise the token is red and the call log gains no
command call.  With a leading space this fails: for the buffer ` add` with `add`
registered the token `add` is green while the Enter calls no command and reports
`Unknown command:  add`. -/
theorem C19_highlight_agrees_with_dispatch :
    (∀ (W : Type) (s : Loop W) (pfx : GoString),
      s.env.ic.inputString ≠ [] → s.env.ic.inputString.head? ≠ some 32 →
      13 ∉ s.env.ic.inputString → 10 ∉ s.env.ic.inputString →
      ((∃ rest, parseInputString s.env.ic pfx =
          pfx ++ green ++ s.env.ic.inputString.takeWhile (fun c => decide (c ≠ 32)) ++ reset ++
            rest) ↔
        (∃ args, (stepKey s enterEvent).env.calls =
          s.env.calls ++
            [Call.command (s.env.ic.inputString.takeWhile (fun c => decide (c ≠ 32))) args])) ∧
      ((∃ rest, parseInputString s.env.ic pfx =
          pfx ++ green ++ s.env.ic.inputString.takeWhile (fun c => decide (c ≠ 32)) ++ reset ++
            rest) ∨
        (∃ rest, parseInputString s.env.ic pfx =
          pfx ++ red ++ s.env.ic.inputString.takeWhile (fun c => decide (c ≠ 32)) ++ reset ++
            rest))) ∧
    (parseInputString spaceAddLoop.env.ic (ascii "> ") =
        ascii "> " ++ green ++ ascii "add" ++ reset ∧
      (stepKey spaceAddLoop enterEvent).env.calls = [] ∧
      (stepKey spaceAddLoop enterEvent).env.stdout =
        [[13] ++ ascii "> " ++ green ++ ascii "add" ++ reset,
         [13] ++ clearEscape ++ ascii "Unknown command:  add" ++ [10, 13] ++ ascii "> "]) := by
  refine ⟨?_, by decide, by rfl, by rfl⟩
  intro W s pfx hne hh h13 h10
  obtain ⟨ts, hts⟩ := first_token_of_no_leading_space _ hne hh
  have hfilter : (Split s.env.ic.inputString).filter (fun p => decide (p ≠ [])) =
      s.env.ic.inputString.takeWhile (fun c => decide (c ≠ 32)) :: ts := by
    rw [← nonEmptyComponents_eq_filter]; exact hts
  have hpaint := parseInputString_tokens s.env.ic pfx _ ts hfilter
  have hname : (Split (TrimRight s.env.ic.inputString [13, 10])).headD [] =
      s.env.ic.inputString.takeWhile (fun c => decide (c ≠ 32)) := by
    rw [TrimRight_of_no_crlf _ h13 h10, Split_head_eq_takeWhile]
  rw [stepKey_enter_calls]
  by_cases hreg : s.env.ic.inputString.takeWhile (fun c => decide (c ≠ 32)) ∈
      s.env.ic.commands.map Prod.fst
  · have hcalls := handleCommand_calls_registered
      ({ ic := { s.env.ic with inputString := [] }, stdout := s.env.stdout ++ [redraw s.env.ic],
         world := s.env.world, calls := s.env.calls } : Env W)
      (TrimRight s.env.ic.inputString [13, 10]) (by rw [hname]; exact hreg)
    rw [hname] at hcalls
    rw [if_pos hreg] at hpaint
    have hgreen : ∃ rest, parseInputString s.env.ic pfx =
        pfx ++ green ++ s.env.ic.inputString.takeWhile (fun c => decide (c ≠ 32)) ++ reset ++
          rest :=
      ⟨(if ts ≠ [] then [32] else []) ++ List.intercalate [32] ts ++
        (if s.env.ic.inputString.getLast? = some 32 then [32] else []),
        by rw [hpaint]; simp only [List.append_assoc]⟩
    exact ⟨⟨fun _ => ⟨_, hcalls⟩, fun _ => hgreen⟩, Or.inl hgreen⟩
  · have hcalls := handleCommand_calls_unknown
      ({ ic := { s.env.ic with inputString := [] }, stdout := s.env.stdout ++ [redraw s.env.ic],
         world := s.env.world, calls := s.env.calls } : Env W)
      (TrimRight s.env.ic.inputString [13, 10]) (by rw [hname]; exact hreg)
    rw [if_neg hreg] at hpaint
    have hred : ∃ rest, parseInputString s.env.ic pfx =
        pfx ++ red ++ s.env.ic.inputString.takeWhile (fun c => decide (c ≠ 32)) ++ reset ++
          rest :=
      ⟨(if ts ≠ [] then [32] else []) ++ List.intercalate [32] ts ++
        (if s.env.ic.inputString.getLast? = some 32 then [32] else []),
        by rw [hpaint]; simp only [List.append_assoc]⟩
    refine ⟨⟨?_, ?_⟩, Or.inr hred⟩
    · rintro ⟨rest, hrest⟩
      exfalso
      rw [hpaint] at hrest
      simp only [List.append_assoc, List.append_cancel_left_eq] at hrest
      exact green_ne_red _ _ hrest.symm
    · rintro ⟨args, hargs⟩
      exfalso
      rcases hcalls with hc | hc
      · rw [hc] at hargs
        have := congrArg List.length hargs
        simp at this
      · rw [hc] at hargs
        have := List.append_cancel_left hargs
        simp at this

theorem C19_highlight_agrees_with_dispatch_witness :
    addLoop.env.ic.inputString ≠ [] ∧ addLoop.env.ic.inputString.head? ≠ some 32 ∧
      13 ∉ addLoop.env.ic.inputString ∧ 10 ∉ addLoop.env.ic.inputString ∧
      (∃ rest, parseInputString addLoop.env.ic (ascii "> ") =
        ascii "> " ++ green ++ addLoop.env.ic.inputString.takeWhile (fun c => decide (c ≠ 32)) ++
          reset ++ rest) ∧
      (stepKey addLoop enterEvent).env.calls =
        [Call.command (ascii "add") [ascii "1", ascii "2"]] := by
  have h := (C19_highlight_agrees_with_dispatch.1 _ addLoop (ascii "> ") (by decide) (by decide)
    (by decide) (by decide)).1
  have hcalls : (stepKey addLoop enterEvent).env.calls =
      [Call.command (ascii "add") [ascii "1", ascii "2"]] := by rfl
  refine ⟨by decide, by decide, by decide, by decide, h.2 ⟨[ascii "1", ascii "2"], ?_⟩, hcalls⟩
  rw [hcalls]
  rfl

/-! ## C20: the painted text and the buffer -/

theorem Join_cons_head (c : Nat) (q : GoString) (l : List GoString) :
    Join ((c :: q) :: l) = c :: Join (q :: l) := by
  cases l <;> simp [Join]

theorem HasSuffixSpace_cons_cons (c d : Nat) (rest : GoString) :
    HasSuffixSpace (c :: d :: rest) = HasSuffixSpace (d :: rest) := by
  simp [HasSuffixSpace, List.getLast?_cons_cons]

/-- For a string without two adjacent spaces, the tokens joined by single spaces,
followed by one space when there are tokens and the string ends with a space, give
the string back, up to one leading space. -/
theorem Join_tokens_of_noDoubleSpace :
    ∀ b : GoString, NoDoubleSpace b →
      Join (nonEmptyComponents (Split b)) ++
          (if nonEmptyComponents (Split b) ≠ [] ∧ HasSuffixSpace b = true then [32] else []) =
        if b.head? = some 32 then b.tail else b
  | [], _ => by simp [Split, nonEmptyComponents, Join]
  | [c], _ => by
    by_cases hc : c = 32
    · simp [Split, nonEmptyComponents, Join, hc]
    · simp [Split, nonEmptyComponents, Join, HasSuffixSpace, hc]
  | c :: d :: rest, h => by
    have hcd : ¬ (c = 32 ∧ d = 32) := (List.chain'_cons.1 h).1
    have htail : NoDoubleSpace (d :: rest) := (List.chain'_cons.1 h).2
    have ih := Join_tokens_of_noDoubleSpace (d :: rest) htail
    rw [HasSuffixSpace_cons_cons]
    by_cases hc : c = 32
    · have hd : d ≠ 32 := fun hd => hcd ⟨hc, hd⟩
      have hsp : Split (c :: d :: rest) = [] :: Split (d :: rest) := by simp [Split, hc]
      have hne : nonEmptyComponents (Split (c :: d :: rest)) =
          nonEmptyComponents (Split (d :: rest)) := by
        rw [hsp]; simp [nonEmptyComponents]
      rw [hne, ih]
      simp [hc, hd]
    · have hhead : ¬ ((c :: d :: rest).head? = some 32) := by simp [hc]
      rw [if_neg hhead]
      by_cases hd : d = 32
      · subst hd
        have hsp1 : Split (32 :: rest) = [] :: Split rest := by simp [Split]
        have hsp : Split (c :: 32 :: rest) = [c] :: Split rest := by
          obtain ⟨p, ps, h1, h2⟩ := Split_cons_of_ne c (32 :: rest) hc
          rw [hsp1] at h1
          cases h1
          exact h2
        have hne1 : nonEmptyComponents (Split (32 :: rest)) =
            nonEmptyComponents (Split rest) := by
          rw [hsp1]; simp [nonEmptyComponents]
        have hne : nonEmptyComponents (Split (c :: 32 :: rest)) =
            [c] :: nonEmptyComponents (Split rest) := by
          rw [hsp]; simp [nonEmptyComponents]
        rw [hne1] at ih
        rw [hne]
        have hih : (32 :: rest).head? = some 32 := rfl
        rw [if_pos hih, List.tail_cons] at ih
        cases htok : nonEmptyComponents (Split rest) with
        | nil =>
          rw [htok] at ih
          simp only [Join, List.nil_append, ne_eq, not_true_eq_false, false_and, if_false] at ih
          rw [← ih]
          simp [Join, HasSuffixSpace]
        | cons t ts =>
          rw [htok] at ih
          simp only [ne_eq, not_false_eq_true, true_and, reduceCtorEq] at ih ⊢
          simp only [Join, List.singleton_append, List.cons_append, List.nil_append]
          rw [ih]
      · obtain ⟨p, ps, _, hsp2⟩ := Split_cons_of_ne d rest hd
        have hsp : Split (c :: d :: rest) = (c :: d :: p) :: ps := by
          obtain ⟨p1, ps1, h1, h2⟩ := Split_cons_of_ne c (d :: rest) hc
          rw [hsp2] at h1
          cases h1
          exact h2
        have hne1 : nonEmptyComponents (Split (d :: rest)) =
            (d :: p) :: nonEmptyComponents ps := by
          rw [hsp2]; simp [nonEmptyComponents]
        have hne : nonEmptyComponents (Split (c :: d :: rest)) =
            (c :: d :: p) :: nonEmptyComponents ps := by
          rw [hsp]; simp [nonEmptyComponents]
        rw [hne1] at ih
        rw [hne, Join_cons_head]
        have hih : ¬ ((d :: rest).head? = some 32) := by simp [hd]
        rw [if_neg hih] at ih
        simp only [ne_eq, not_false_eq_true, true_and, reduceCtorEq, List.cons_append] at ih ⊢
        rw [ih]

theorem noDoubleSpace_of_no_pair :
    ∀ b : GoString, ¬ ([32, 32] <:+: b) → NoDoubleSpace b
  | [], _ => List.chain'_nil
  | [c], _ => List.chain'_singleton c
  | c :: d :: rest, h => by
    refine List.chain'_cons.2 ⟨?_, noDoubleSpace_of_no_pair (d :: rest) ?_⟩
    · rintro ⟨hc, hd⟩
      apply h
      rw [hc, hd]
      exact ⟨[], rest, rfl⟩
    · intro hin
      exact h (hin.trans (List.suffix_cons c (d :: rest)).isInfix)

theorem Join_cons (a : GoString) (l : List GoString) :
    Join (a :: l) = a ++ (if l ≠ [] then [32] else []) ++ Join l := by
  cases l <;> simp [Join]

/-- C20: for a buffer that holds a non-space byte, does not start with a space and
has no two adjacent spaces, `parseInputString pfx` is `pfx`, the green or red code, the
buffer up to its first space, the reset code, and the rest of the buffer from that
space on; so without the two escape sequences the painted line is `pfx` followed by
the buffer, and it is longer than `pfx` and the buffer together by the nine bytes of
the two escapes only. -/
theorem C20_painted_text_matches_buffer :
    ∀ (W : Type) (ic : Console W) (pfx : GoString),
      (∃ c ∈ ic.inputString, c ≠ 32) → ic.inputString.head? ≠ some 32 →
      ¬ ([32, 32] <:+: ic.inputString) →
      parseInputString ic pfx =
        pfx ++
          (if ic.inputString.takeWhile (fun c => decide (c ≠ 32)) ∈ ic.commands.map Prod.fst
            then green else red) ++
          ic.inputString.takeWhile (fun c => decide (c ≠ 32)) ++ reset ++
          ic.inputString.dropWhile (fun c => decide (c ≠ 32)) ∧
      pfx ++ ic.inputString.takeWhile (fun c => decide (c ≠ 32)) ++
          ic.inputString.dropWhile (fun c => decide (c ≠ 32)) = pfx ++ ic.inputString ∧
      (parseInputString ic pfx).length = pfx.length + ic.inputString.length + 9 := by
  intro W ic pfx hex hh hinf
  have hne : ic.inputString ≠ [] := by
    obtain ⟨c, hc, _⟩ := hex
    exact List.ne_nil_of_mem hc
  obtain ⟨ts, hts⟩ := first_token_of_no_leading_space _ hne hh
  have hfilter : (Split ic.inputString).filter (fun p => decide (p ≠ [])) =
      ic.inputString.takeWhile (fun c => decide (c ≠ 32)) :: ts := by
    rw [← nonEmptyComponents_eq_filter]; exact hts
  have hpaint := parseInputString_tokens ic pfx _ ts hfilter
  have hjoin := Join_tokens_of_noDoubleSpace _ (noDoubleSpace_of_no_pair _ hinf)
  rw [hts, if_neg hh, Join_cons, Join_eq_intercalate] at hjoin
  have hsplit := List.takeWhile_append_dropWhile (fun c => decide (c ≠ 32)) ic.inputString
  have hrest : (if ts ≠ [] then [32] else []) ++ List.intercalate [32] ts ++
      (if ic.inputString.getLast? = some 32 then [32] else []) =
      ic.inputString.dropWhile (fun c => decide (c ≠ 32)) := by
    have h1 : ic.inputString.takeWhile (fun c => decide (c ≠ 32)) ++
        ((if ts ≠ [] then [32] else []) ++ List.intercalate [32] ts ++
          (if ic.inputString.getLast? = some 32 then [32] else [])) = ic.inputString := by
      have htr : (if ic.inputString.takeWhile (fun c => decide (c ≠ 32)) :: ts ≠ [] ∧
          HasSuffixSpace ic.inputString = true then [32] else ([] : GoString)) =
          (if ic.inputString.getLast? = some 32 then [32] else []) := by
        by_cases hl : ic.inputString.getLast? = some 32
        · have hs : HasSuffixSpace ic.inputString = true := (HasSuffixSpace_iff _).2 hl
          simp [hl, hs]
        · have hs : ¬ (HasSuffixSpace ic.inputString = true) :=
            fun hs => hl ((HasSuffixSpace_iff _).1 hs)
          simp [hl, hs]
      rw [htr] at hjoin
      simpa only [List.append_assoc] using hjoin
    exact List.append_cancel_left (h1.trans hsplit.symm)
  have hmain : parseInputString ic pfx =
      pfx ++
        (if ic.inputString.takeWhile (fun c => decide (c ≠ 32)) ∈ ic.commands.map Prod.fst
          then green else red) ++
        ic.inputString.takeWhile (fun c => decide (c ≠ 32)) ++ reset ++
        ic.inputString.dropWhile (fun c => decide (c ≠ 32)) := by
    rw [hpaint, ← hrest]
    simp only [List.append_assoc]
  refine ⟨hmain, by rw [List.append_assoc, hsplit], ?_⟩
  rw [hmain]
  have hlen : (ic.inputString.takeWhile (fun c => decide (c ≠ 32))).length +
      (ic.inputString.dropWhile (fun c => decide (c ≠ 32))).length = ic.inputString.length := by
    rw [← List.length_append, hsplit]
  have hcol : (if ic.inputString.takeWhile (fun c => decide (c ≠ 32)) ∈
      ic.commands.map Prod.fst then green else red).length = 5 := by
    split <;> rfl
  have hreset : reset.length = 4 := rfl
  simp only [List.length_append, hcol, hreset]
  omega

theorem C20_painted_text_matches_buffer_witness :
    (∃ c ∈ regularConsole.inputString, c ≠ 32) ∧ regularConsole.inputString.head? ≠ some 32 ∧
      ¬ ([32, 32] <:+: regularConsole.inputString) ∧
      parseInputString regularConsole (ascii "> ") =
        ascii "> " ++ green ++ ascii "add" ++ reset ++ ascii " 1 2 " := by
  have hex : ∃ c ∈ regularConsole.inputString, c ≠ 32 := ⟨97, by decide, by decide⟩
  refine ⟨hex, by decide, by decide, ?_⟩
  rw [(C20_painted_text_matches_buffer Unit regularConsole (ascii "> ") hex (by decide)
    (by decide)).1]
  decide

end InputConsole
